import Mathlib

/-!
Verification of the shared-transport multiplexer and command-channel protocol
engine of the esp32-wifi-api firmware.

The definitions below are shallow embeddings of the C++ sources:
  - RingBuffer              from include/AsyncSerial.h
  - AsyncSerial poll loop   from include/AsyncSerial.h
  - SerialProxy             from lib/APIServer/src/SerialProxy.h
  - SerialFormatter         from lib/APIServer/src/SerialFormatter.h
  - SerialAPIEndpoint       from lib/APIServer/src/SerialAPIEndpoint.h

Arduino String values are embedded as List Char, machine integers as Nat
(the only unsigned wraparound that can fire in the embedded code paths is
noted where it is modelled), and JSON documents as a small inductive type.
-/

/-- Characters an Arduino String.trim strips: the C isspace set. -/
def isWsChar (c : Char) : Bool :=
  c = ' ' || c = '\t' || c = '\n' || c = '\x0b' || c = '\x0c' || c = '\r'

/-- Embedded Arduino String. -/
abbrev Str := List Char

/-- String.trim, left part. -/
def trimL (s : Str) : Str := s.dropWhile isWsChar

/-- String.trim, right part. -/
def trimR (s : Str) : Str := (s.reverse.dropWhile isWsChar).reverse

/-- Arduino String.trim: strips isspace characters from both ends. -/
def trim (s : Str) : Str := trimR (trimL s)

/-- Arduino String.indexOf(ch): index of the first occurrence (none for -1). -/
def idxOf? : Str → Char → Option Nat
  | [], _ => none
  | a :: l, c => if a = c then some 0 else (idxOf? l c).map (· + 1)

/-- Arduino String.substring(l, r): half-open slice, swapping if l > r and
clamping r to the length. -/
def substringA (s : Str) (l r : Nat) : Str :=
  if r < l then (s.take l).drop r else (s.take r).drop l

/-- Arduino String.startsWith. -/
def startsWithA (s pre : Str) : Bool := pre.isPrefixOf s

/-- Arduino String.endsWith. -/
def endsWithA (s suf : Str) : Bool := suf.isSuffixOf s

-- ===================== RingBuffer (include/AsyncSerial.h) =====================

/-- RingBuffer of the standalone transport scheduler: a fixed array of
capacity `size` plus read index, write index and count.  The C++ template
parameter SIZE is the `size` field. -/
structure RingBuffer (T : Type) where
  size : Nat
  buffer : Nat → T
  readIndex : Nat
  writeIndex : Nat
  count : Nat

namespace RingBuffer

/-- Fresh buffer: RingBuffer() : _readIndex(0), _writeIndex(0), _count(0). -/
def init (T : Type) [Inhabited T] (n : Nat) : RingBuffer T :=
  { size := n, buffer := fun _ => default, readIndex := 0, writeIndex := 0, count := 0 }

/-- Single-item bool write(const T&): refuses when full. -/
def write1 (rb : RingBuffer T) (x : T) : Bool × RingBuffer T :=
  if rb.size ≤ rb.count then (false, rb)
  else (true,
    { rb with
      buffer := fun j => if j = rb.writeIndex then x else rb.buffer j
      writeIndex := (rb.writeIndex + 1) % rb.size
      count := rb.count + 1 })

/-- One iteration of the bulk-write loop: stores at the write index and
advances it; the count is added once after the loop, as in the source. -/
def bulkStep (rb : RingBuffer T) (x : T) : RingBuffer T :=
  { rb with
    buffer := fun j => if j = rb.writeIndex then x else rb.buffer j
    writeIndex := (rb.writeIndex + 1) % rb.size }

/-- Bulk bool write(const T*, size_t): all-or-nothing. -/
def writeBulk (rb : RingBuffer T) (data : List T) : Bool × RingBuffer T :=
  if rb.size < rb.count + data.length then (false, rb)
  else (true, { data.foldl bulkStep rb with count := rb.count + data.length })

/-- bool read(T&): returns the item read, or none when empty. -/
def read1 (rb : RingBuffer T) : Option T × RingBuffer T :=
  if rb.count = 0 then (none, rb)
  else (some (rb.buffer rb.readIndex),
    { rb with readIndex := (rb.readIndex + 1) % rb.size, count := rb.count - 1 })

/-- size_t available(). -/
def avail (rb : RingBuffer T) : Nat := rb.count

/-- The queue content, oldest first: the `count` items starting at the read
index. -/
def toList (rb : RingBuffer T) : List T :=
  (List.range rb.count).map fun i => rb.buffer ((rb.readIndex + i) % rb.size)

/-- Well-formedness: every state reachable from `init` with positive capacity
satisfies this. -/
def wf (rb : RingBuffer T) : Prop :=
  rb.count ≤ rb.size ∧ rb.readIndex < rb.size ∧
    rb.writeIndex = (rb.readIndex + rb.count) % rb.size

/-- A single-item operation on the buffer. -/
inductive Op (T : Type) where
  | w (x : T)
  | r

/-- Apply one single-item operation, keeping only the resulting state. -/
def applyOp (rb : RingBuffer T) : Op T → RingBuffer T
  | .w x => (rb.write1 x).2
  | .r => (rb.read1).2

/-- Apply a sequence of single-item operations. -/
def applyOps (rb : RingBuffer T) (ops : List (Op T)) : RingBuffer T :=
  ops.foldl applyOp rb

theorem wf_init (T : Type) [Inhabited T] (n : Nat) (hn : 0 < n) : wf (init T n) := by
  refine ⟨Nat.zero_le _, hn, ?_⟩
  simp [init]

theorem wf_write1 {T : Type} {rb : RingBuffer T} (h : wf rb) (x : T) :
    wf (rb.write1 x).2 := by
  obtain ⟨hc, hr, hw⟩ := h
  unfold write1
  split
  · exact ⟨hc, hr, hw⟩
  · rename_i hfull
    refine ⟨?_, ?_, ?_⟩ <;> dsimp only
    · omega
    · exact hr
    · rw [hw, Nat.mod_add_mod, Nat.add_assoc]

theorem wf_read1 {T : Type} {rb : RingBuffer T} (h : wf rb) :
    wf (rb.read1).2 := by
  obtain ⟨hc, hr, hw⟩ := h
  unfold read1
  split
  · exact ⟨hc, hr, hw⟩
  · rename_i hcnt
    have hsz : 0 < rb.size := Nat.lt_of_lt_of_le (Nat.pos_of_ne_zero hcnt) hc
    refine ⟨?_, ?_, ?_⟩ <;> dsimp only
    · omega
    · exact Nat.mod_lt _ hsz
    · rw [hw, Nat.mod_add_mod]
      congr 1
      omega

/-- Adding distinct residues below the modulus to a common offset stays
injective. -/
theorem mod_add_inj {N r i j : Nat} (hi : i < N) (hj : j < N)
    (h : (r + i) % N = (r + j) % N) : i = j := by
  have h2 : i ≡ j [MOD N] := Nat.ModEq.add_left_cancel' r h
  have h3 : i % N = j % N := h2
  rwa [Nat.mod_eq_of_lt hi, Nat.mod_eq_of_lt hj] at h3

/-- A single-item write into a non-full buffer succeeds and appends the item. -/
theorem write1_toList {T : Type} {rb : RingBuffer T} (h : wf rb) (x : T)
    (hlt : rb.count < rb.size) :
    (rb.write1 x).1 = true ∧
    toList (rb.write1 x).2 = toList rb ++ [x] ∧
    (rb.write1 x).2.count = rb.count + 1 ∧
    (rb.write1 x).2.readIndex = rb.readIndex ∧
    (rb.write1 x).2.size = rb.size := by
  obtain ⟨hc, hr, hw⟩ := h
  have hne : ¬ rb.size ≤ rb.count := by omega
  unfold write1
  rw [if_neg hne]
  refine ⟨rfl, ?_, rfl, rfl, rfl⟩
  unfold toList
  dsimp only
  rw [List.range_succ, List.map_append]
  congr 1
  · apply List.map_congr_left
    intro i hi
    have hi2 : i < rb.count := List.mem_range.mp hi
    have hneq : (rb.readIndex + i) % rb.size ≠ rb.writeIndex := by
      rw [hw]
      intro hcontra
      have := mod_add_inj (Nat.lt_trans hi2 hlt) hlt hcontra
      omega
    simp [hneq]
  · simp [hw]

/-- Folding single-item writes over a buffer with enough free space appends the
whole list. -/
theorem foldl_write1 {T : Type} (data : List T) :
    ∀ rb : RingBuffer T, wf rb → rb.count + data.length ≤ rb.size →
    wf (data.foldl (fun b x => (b.write1 x).2) rb) ∧
    toList (data.foldl (fun b x => (b.write1 x).2) rb) = toList rb ++ data ∧
    (data.foldl (fun b x => (b.write1 x).2) rb).count = rb.count + data.length ∧
    (data.foldl (fun b x => (b.write1 x).2) rb).readIndex = rb.readIndex ∧
    (data.foldl (fun b x => (b.write1 x).2) rb).size = rb.size := by
  induction data with
  | nil =>
    intro rb hwf _
    refine ⟨hwf, by simp, by simp, rfl, rfl⟩
  | cons x xs ih =>
    intro rb hwf hcap
    simp only [List.length_cons] at hcap
    have hlt : rb.count < rb.size := by omega
    obtain ⟨_, htl, hcnt, hri, hsz⟩ := write1_toList hwf x hlt
    have hwf2 : wf (rb.write1 x).2 := wf_write1 hwf x
    have hcap2 : (rb.write1 x).2.count + xs.length ≤ (rb.write1 x).2.size := by
      rw [hcnt, hsz]; omega
    obtain ⟨ih1, ih2, ih3, ih4, ih5⟩ := ih (rb.write1 x).2 hwf2 hcap2
    simp only [List.foldl_cons, List.length_cons]
    refine ⟨ih1, ?_, ?_, ?_, ?_⟩
    · rw [ih2, htl, List.append_assoc]
      rfl
    · rw [ih3, hcnt]; omega
    · rw [ih4, hri]
    · rw [ih5, hsz]

theorem bulkStep_size {T : Type} (rb : RingBuffer T) (x : T) :
    (rb.bulkStep x).size = rb.size := rfl

theorem bulkStep_count {T : Type} (rb : RingBuffer T) (x : T) :
    (rb.bulkStep x).count = rb.count := rfl

/-- Replacing the count before folding the bulk-write body equals folding and
then replacing the count: the loop never reads or writes the count. -/
theorem foldl_bulkStep_setCount {T : Type} (xs : List T) :
    ∀ (rb : RingBuffer T) (c : Nat),
    xs.foldl bulkStep { rb with count := c } =
      { xs.foldl bulkStep rb with count := c } := by
  induction xs with
  | nil => intro rb c; rfl
  | cons x xs ih =>
    intro rb c
    simp only [List.foldl_cons]
    rw [show bulkStep { rb with count := c } x = { bulkStep rb x with count := c } from rfl]
    exact ih _ c

/-- On success the bulk write is exactly the fold of single-item writes. -/
theorem writeBulk_eq_foldl_write1 {T : Type} (data : List T) :
    ∀ rb : RingBuffer T, wf rb → rb.count + data.length ≤ rb.size →
    rb.writeBulk data = (true, data.foldl (fun b x => (b.write1 x).2) rb) := by
  induction data with
  | nil =>
    intro rb hwf hcap
    unfold writeBulk
    have : ¬ rb.size < rb.count + ([] : List T).length := by simp; omega
    simp only [if_neg this, List.foldl_nil]
    rfl
  | cons x xs ih =>
    intro rb hwf hcap
    simp only [List.length_cons] at hcap
    have hlt : rb.count < rb.size := by omega
    have hne : ¬ rb.size ≤ rb.count := by omega
    have hw1 : (rb.write1 x).2 = { bulkStep rb x with count := rb.count + 1 } := by
      unfold write1 bulkStep
      simp only [if_neg hne]
    have hwf2 : wf (rb.write1 x).2 := wf_write1 hwf x
    have hcap2 : (rb.write1 x).2.count + xs.length ≤ (rb.write1 x).2.size := by
      rw [hw1]; dsimp only [bulkStep_size]; omega
    have ihx := ih (rb.write1 x).2 hwf2 hcap2
    unfold writeBulk at ihx ⊢
    have hnofail : ¬ rb.size < rb.count + (x :: xs).length := by
      simp only [List.length_cons]; omega
    rw [if_neg hnofail]
    have hnofail2 : ¬ (rb.write1 x).2.size < (rb.write1 x).2.count + xs.length := by
      rw [hw1]; dsimp only [bulkStep_size]; omega
    rw [if_neg hnofail2] at ihx
    have hfold : xs.foldl (fun b x => (b.write1 x).2) (rb.write1 x).2 =
        { xs.foldl bulkStep (bulkStep rb x) with count := (rb.write1 x).2.count + xs.length } := by
      have := congrArg Prod.snd ihx
      dsimp only at this
      rw [← this, hw1, foldl_bulkStep_setCount]
    simp only [List.foldl_cons, hfold]
    have hcnt2 : (rb.write1 x).2.count = rb.count + 1 := by rw [hw1]
    rw [hcnt2, List.length_cons,
      show rb.count + (xs.length + 1) = rb.count + 1 + xs.length from by omega]

theorem wf_applyOps {T : Type} (ops : List (Op T)) :
    ∀ rb : RingBuffer T, wf rb → wf (applyOps rb ops) := by
  induction ops with
  | nil => intro rb h; exact h
  | cons op rest ih =>
    intro rb h
    cases op with
    | w x => exact ih _ (wf_write1 h x)
    | r => exact ih _ (wf_read1 h)

theorem size_applyOp {T : Type} (rb : RingBuffer T) (op : Op T) :
    (applyOp rb op).size = rb.size := by
  cases op with
  | w x => simp only [applyOp]; unfold write1; split <;> rfl
  | r => simp only [applyOp]; unfold read1; split <;> rfl

theorem size_applyOps {T : Type} (ops : List (Op T)) :
    ∀ rb : RingBuffer T, (applyOps rb ops).size = rb.size := by
  induction ops with
  | nil => intro rb; rfl
  | cons op rest ih =>
    intro rb
    have h1 : applyOps rb (op :: rest) = applyOps (applyOp rb op) rest := rfl
    rw [h1, ih, size_applyOp]

end RingBuffer

open RingBuffer in
/-- C1.  Along every sequence of single-item writes and reads from a fresh
buffer of capacity N the count stays between 0 and N; a single-item write
against a full buffer returns false and changes nothing; a read against an
empty buffer returns false (no item) and changes nothing. -/
theorem c1_ringBuffer_single_item_invariant (T : Type) [Inhabited T] (N : Nat)
    (hN : 0 < N) (ops : List (Op T)) :
    (applyOps (init T N) ops).avail ≤ N ∧
    (∀ rb : RingBuffer T, rb.size = N → rb.avail = N →
      ∀ x : T, rb.write1 x = (false, rb)) ∧
    (∀ rb : RingBuffer T, rb.avail = 0 → rb.read1 = (none, rb)) := by
  refine ⟨?_, ?_, ?_⟩
  · have hwf := wf_applyOps ops (init T N) (wf_init T N hN)
    have hsz : (applyOps (init T N) ops).size = N := size_applyOps ops (init T N)
    obtain ⟨h1, -, -⟩ := hwf
    unfold RingBuffer.avail
    omega
  · intro rb hsz hcnt x
    unfold RingBuffer.avail at hcnt
    unfold RingBuffer.write1
    rw [if_pos (by omega)]
  · intro rb hcnt
    unfold RingBuffer.avail at hcnt
    unfold RingBuffer.read1
    rw [if_pos hcnt]

/-- Witness for C1: capacity 2, a concrete write/read sequence, a concrete
full buffer and a concrete empty buffer. -/
theorem c1_ringBuffer_single_item_invariant_witness :
    (RingBuffer.applyOps (RingBuffer.init Nat 2) [.w 7, .w 8, .w 9, .r]).avail ≤ 2 ∧
    RingBuffer.write1 ⟨2, fun _ => 0, 0, 0, 2⟩ (5 : Nat) = (false, ⟨2, fun _ => 0, 0, 0, 2⟩) ∧
    RingBuffer.read1 (⟨2, fun _ => 0, 0, 0, 0⟩ : RingBuffer Nat) =
      (none, ⟨2, fun _ => 0, 0, 0, 0⟩) := by
  obtain ⟨h1, h2, h3⟩ :=
    c1_ringBuffer_single_item_invariant Nat 2 (by decide) [.w 7, .w 8, .w 9, .r]
  exact ⟨h1, h2 ⟨2, fun _ => 0, 0, 0, 2⟩ rfl rfl 5, h3 ⟨2, fun _ => 0, 0, 0, 0⟩ rfl⟩

open RingBuffer in
/-- C2.  A bulk write succeeds exactly when the free space is at least the
item count; on success all items are appended in order; on refusal the buffer
is completely unchanged. -/
theorem c2_ringBuffer_bulk_write_all_or_nothing {T : Type} (rb : RingBuffer T)
    (data : List T) (h : wf rb) :
    ((rb.writeBulk data).1 = true ↔ data.length ≤ rb.size - rb.avail) ∧
    ((rb.writeBulk data).1 = true →
      toList (rb.writeBulk data).2 = toList rb ++ data) ∧
    ((rb.writeBulk data).1 = false → (rb.writeBulk data).2 = rb) := by
  obtain ⟨hc, hr, hw⟩ := h
  by_cases hcap : rb.size < rb.count + data.length
  · have hfalse : rb.writeBulk data = (false, rb) := by
      unfold writeBulk; rw [if_pos hcap]
    rw [hfalse]
    refine ⟨⟨?_, ?_⟩, ?_, fun _ => rfl⟩
    · intro h2; simp at h2
    · intro h2; unfold avail at h2; exfalso; omega
    · intro h2; simp at h2
  · have hcap2 : rb.count + data.length ≤ rb.size := by omega
    have heq := writeBulk_eq_foldl_write1 data rb ⟨hc, hr, hw⟩ hcap2
    obtain ⟨w1, w2, w3, w4, w5⟩ := foldl_write1 data rb ⟨hc, hr, hw⟩ hcap2
    rw [heq]
    refine ⟨⟨?_, ?_⟩, fun _ => w2, ?_⟩
    · intro _; unfold avail; omega
    · intro _; rfl
    · intro h2; simp at h2

/-- Witness for C2: a concrete well-formed buffer of capacity 3 holding no
items accepts a two-item bulk write and appends the items in order. -/
theorem c2_ringBuffer_bulk_write_all_or_nothing_witness :
    (RingBuffer.writeBulk (⟨3, fun _ => 0, 0, 0, 0⟩ : RingBuffer Nat) [4, 5]).1 = true ∧
    RingBuffer.toList (RingBuffer.writeBulk (⟨3, fun _ => 0, 0, 0, 0⟩ : RingBuffer Nat) [4, 5]).2 =
      RingBuffer.toList (⟨3, fun _ => 0, 0, 0, 0⟩ : RingBuffer Nat) ++ [4, 5] := by
  obtain ⟨h1, h2, h3⟩ :=
    c2_ringBuffer_bulk_write_all_or_nothing (⟨3, fun _ => 0, 0, 0, 0⟩ : RingBuffer Nat)
      [4, 5] ⟨by decide, by decide, by decide⟩
  have ht := h1.mpr (by decide)
  exact ⟨ht, h2 ht⟩

-- ===================== AsyncSerial (include/AsyncSerial.h) =====================

/-- Registered proxy as the scheduler sees it: the SerialProxy template's two
ring buffers and inter-message delay plus the scheduler's ProxyState fields. -/
structure ProxyS where
  rx : RingBuffer Nat
  tx : RingBuffer Nat
  interMessageDelay : Nat
  lastTxTime : Nat
  isActive : Bool

/-- AsyncSerial::State. -/
inductive AState where
  | idle
  | read
  | write
  | flush
deriving DecidableEq

/-- AsyncSerial scheduler state.  The physical line is the pending inbound
byte list plus the accumulated outbound byte list; the flush lock owner is the
index of the owning proxy. -/
structure AsyncSerialState where
  state : AState
  proxies : List ProxyS
  flushOwner : Option Nat
  serialIn : List Nat
  serialOut : List Nat

/-- Bounded inbound chunk per poll cycle. -/
def RX_CHUNK_SIZE : Nat := 256

/-- Broadcast of one inbound byte: proxy->pushToRx(data) for every registered
proxy; a full inbound ring refuses and the byte is dropped for that proxy. -/
def pushByteAll (ps : List ProxyS) (b : Nat) : List ProxyS :=
  ps.map fun p => { p with rx := (p.rx.write1 b).2 }

/-- The State::READ while loop: drains up to `fuel` inbound bytes, pushing
each to every proxy. -/
def readLoop : Nat → AsyncSerialState → AsyncSerialState
  | 0, s => s
  | fuel + 1, s =>
    match s.serialIn with
    | [] => s
    | b :: rest =>
      readLoop fuel { s with serialIn := rest, proxies := pushByteAll s.proxies b }

/-- The while loop inside sendChunk: reads up to n bytes from the tx ring,
stopping early if it empties. -/
def txReadN : RingBuffer Nat → Nat → List Nat × RingBuffer Nat
  | rb, 0 => ([], rb)
  | rb, n + 1 =>
    match rb.read1 with
    | (none, rb2) => ([], rb2)
    | (some b, rb2) =>
      let r := txReadN rb2 n
      (b :: r.1, r.2)

/-- AsyncSerial::sendChunk: transmits min(line capacity, tx available) bytes
from one proxy; with no line capacity it does nothing. -/
def sendChunk (cap : Nat) (p : ProxyS) (out : List Nat) : ProxyS × List Nat :=
  if cap = 0 then (p, out)
  else
    let r := txReadN p.tx (min cap p.tx.avail)
    ({ p with tx := r.2 }, out ++ r.1)

/-- The State::WRITE for loop: skips inactive proxies, waits on the
inter-message delay, sends one chunk from the first active proxy, deactivates
it and returns to idle once its buffer empties. -/
def writePhaseA (now cap : Nat) : List ProxyS → List Nat → List ProxyS × List Nat × AState
  | [], out => ([], out, AState.write)
  | p :: rest, out =>
    if !p.isActive then
      let r := writePhaseA now cap rest out
      (p :: r.1, r.2.1, r.2.2)
    else if now - p.lastTxTime < p.interMessageDelay then
      (p :: rest, out, AState.write)
    else
      let r := sendChunk cap p out
      let p3 : ProxyS := { r.1 with lastTxTime := now }
      if p3.tx.avail = 0 then
        ({ p3 with isActive := false } :: rest, r.2, AState.idle)
      else
        (p3 :: rest, r.2, AState.write)

/-- The State::FLUSH while loop: drains the owner's tx buffer chunk by chunk;
with no line capacity no progress is made and the wall-clock timeout is what
ends the loop in the source. -/
def flushLoop (cap : Nat) : Nat → ProxyS → List Nat → ProxyS × List Nat
  | 0, p, out => (p, out)
  | fuel + 1, p, out =>
    if p.tx.avail = 0 then (p, out)
    else if cap = 0 then (p, out)
    else
      let r := sendChunk cap p out
      flushLoop cap fuel r.1 r.2

/-- One AsyncSerial::poll() invocation.  `now` is millis() and `cap` is
Serial.availableForWrite() for this cycle. -/
def pollOnce (now cap : Nat) (s : AsyncSerialState) : AsyncSerialState :=
  match s.state with
  | AState.idle =>
    if s.serialIn ≠ [] then { s with state := AState.read }
    else
      match s.proxies.findIdx? (fun p => 0 < p.tx.avail) with
      | some i =>
        match s.proxies.get? i with
        | some p => { s with proxies := s.proxies.set i { p with isActive := true },
                             state := AState.write }
        | none => s
      | none => s
  | AState.read =>
    let s2 := readLoop RX_CHUNK_SIZE s
    { s2 with state := if s2.serialIn = [] then AState.idle else AState.read }
  | AState.write =>
    let r := writePhaseA now cap s.proxies s.serialOut
    { s with proxies := r.1, serialOut := r.2.1, state := r.2.2 }
  | AState.flush =>
    match s.flushOwner with
    | none => s
    | some i =>
      match s.proxies.get? i with
      | none => s
      | some p =>
        let r := flushLoop cap p.tx.count p s.serialOut
        { s with proxies := s.proxies.set i r.1, serialOut := r.2,
                 state := if r.1.tx.avail = 0 then AState.idle else AState.flush }

/-- Repeated polling in the read state until the line's inbound queue is
drained (the scheduler keeps choosing READ while Serial.available()). -/
def runReads (now cap : Nat) : Nat → AsyncSerialState → AsyncSerialState
  | 0, s => s
  | fuel + 1, s =>
    if s.serialIn = [] then s
    else runReads now cap fuel (pollOnce now cap { s with state := AState.read })

/-- Delivery of one inbound chunk to the physical line followed by polling
until the line is drained. -/
def deliverChunk (now cap : Nat) (s : AsyncSerialState) (chunk : List Nat) :
    AsyncSerialState :=
  runReads now cap (s.serialIn.length + chunk.length)
    { s with serialIn := s.serialIn ++ chunk }

/-- Delivery of a sequence of inbound chunks, each drained before the next
arrives. -/
def deliverChunks (now cap : Nat) (s : AsyncSerialState) (chunks : List (List Nat)) :
    AsyncSerialState :=
  chunks.foldl (deliverChunk now cap) s

theorem readLoop_serialIn (fuel : Nat) :
    ∀ s : AsyncSerialState, (readLoop fuel s).serialIn = s.serialIn.drop fuel := by
  induction fuel with
  | zero => intro s; rfl
  | succ n ih =>
    intro s
    rcases hin : s.serialIn with - | ⟨b, rest⟩
    · simp [readLoop, hin]
    · simp [readLoop, hin, ih]

theorem readLoop_proxies (fuel : Nat) :
    ∀ s : AsyncSerialState,
      (readLoop fuel s).proxies = (s.serialIn.take fuel).foldl pushByteAll s.proxies := by
  induction fuel with
  | zero => intro s; rfl
  | succ n ih =>
    intro s
    rcases hin : s.serialIn with - | ⟨b, rest⟩
    · simp [readLoop, hin]
    · simp [readLoop, hin, ih]

theorem readLoop_serialOut (fuel : Nat) :
    ∀ s : AsyncSerialState, (readLoop fuel s).serialOut = s.serialOut := by
  induction fuel with
  | zero => intro s; rfl
  | succ n ih =>
    intro s
    rcases hin : s.serialIn with - | ⟨b, rest⟩
    · simp [readLoop, hin]
    · simp [readLoop, hin, ih]

theorem runReads_spec (now cap : Nat) (fuel : Nat) :
    ∀ s : AsyncSerialState, s.serialIn.length ≤ fuel →
      (runReads now cap fuel s).serialIn = [] ∧
      (runReads now cap fuel s).proxies = s.serialIn.foldl pushByteAll s.proxies ∧
      (runReads now cap fuel s).serialOut = s.serialOut := by
  induction fuel with
  | zero =>
    intro s hlen
    have hin : s.serialIn = [] := List.length_eq_zero.mp (Nat.le_zero.mp hlen)
    exact ⟨hin, by rw [hin]; rfl, rfl⟩
  | succ n ih =>
    intro s hlen
    unfold runReads
    by_cases hin : s.serialIn = []
    · rw [if_pos hin]
      exact ⟨hin, by rw [hin]; rfl, rfl⟩
    · rw [if_neg hin]
      have h2in : (pollOnce now cap { s with state := AState.read }).serialIn =
          s.serialIn.drop RX_CHUNK_SIZE := readLoop_serialIn RX_CHUNK_SIZE _
      have h2px : (pollOnce now cap { s with state := AState.read }).proxies =
          (s.serialIn.take RX_CHUNK_SIZE).foldl pushByteAll s.proxies :=
        readLoop_proxies RX_CHUNK_SIZE _
      have h2out : (pollOnce now cap { s with state := AState.read }).serialOut =
          s.serialOut := readLoop_serialOut RX_CHUNK_SIZE _
      have hlen2 : (pollOnce now cap { s with state := AState.read }).serialIn.length ≤ n := by
        rw [h2in, List.length_drop]
        have hpos : 0 < s.serialIn.length := List.length_pos.mpr hin
        have h256 : RX_CHUNK_SIZE = 256 := rfl
        omega
      obtain ⟨r1, r2, r3⟩ := ih _ hlen2
      refine ⟨r1, ?_, by rw [r3, h2out]⟩
      rw [r2, h2px, h2in, ← List.foldl_append, List.take_append_drop]

theorem foldl_pushByteAll (bytes : List Nat) :
    ∀ ps : List ProxyS,
      bytes.foldl pushByteAll ps =
        ps.map fun p => { p with rx := bytes.foldl (fun rb b => (rb.write1 b).2) p.rx } := by
  induction bytes with
  | nil =>
    intro ps
    simp only [List.foldl_nil]
    conv_rhs => rw [show (fun p : ProxyS => { p with rx := p.rx }) = id from rfl, List.map_id]
  | cons b bs ih =>
    intro ps
    rw [List.foldl_cons, ih, pushByteAll, List.map_map]
    rfl

theorem deliverChunk_spec (now cap : Nat) (s : AsyncSerialState) (chunk : List Nat) :
    (deliverChunk now cap s chunk).serialIn = [] ∧
    (deliverChunk now cap s chunk).proxies =
      (s.serialIn ++ chunk).foldl pushByteAll s.proxies ∧
    (deliverChunk now cap s chunk).serialOut = s.serialOut := by
  unfold deliverChunk
  have hlen : ({ s with serialIn := s.serialIn ++ chunk } : AsyncSerialState).serialIn.length ≤
      s.serialIn.length + chunk.length := by
    simp
  exact runReads_spec now cap _ _ hlen

theorem deliverChunks_spec (now cap : Nat) (chunks : List (List Nat)) :
    ∀ s : AsyncSerialState, s.serialIn = [] →
      (deliverChunks now cap s chunks).serialIn = [] ∧
      (deliverChunks now cap s chunks).proxies = chunks.flatten.foldl pushByteAll s.proxies ∧
      (deliverChunks now cap s chunks).serialOut = s.serialOut := by
  induction chunks with
  | nil =>
    intro s hin
    exact ⟨hin, rfl, rfl⟩
  | cons ch chs ih =>
    intro s hin
    have hstep : deliverChunks now cap s (ch :: chs) =
        deliverChunks now cap (deliverChunk now cap s ch) chs := rfl
    obtain ⟨d1, d2, d3⟩ := deliverChunk_spec now cap s ch
    rw [hin, List.nil_append] at d2
    obtain ⟨r1, r2, r3⟩ := ih (deliverChunk now cap s ch) d1
    rw [hstep]
    refine ⟨r1, ?_, by rw [r3, d3]⟩
    rw [r2, d2, ← List.foldl_append, List.flatten_cons]

open RingBuffer in
/-- C4 (amended).  For any split of an inbound byte sequence into chunks, the
Read phase pushes, for every registered proxy, exactly the original sequence
in arrival order into that proxy's inbound ring — provided each proxy's
inbound ring has room for the whole sequence (a byte arriving at a full ring
is dropped for that proxy, which the counterexample exhibits). -/
theorem c4_read_broadcast_chunking_amended (now cap : Nat) (s : AsyncSerialState)
    (chunks : List (List Nat)) (hin : s.serialIn = [])
    (hroom : ∀ p ∈ s.proxies, wf p.rx ∧ p.rx.count + chunks.flatten.length ≤ p.rx.size) :
    List.Forall₂
      (fun p q => toList q.rx = toList p.rx ++ chunks.flatten)
      s.proxies (deliverChunks now cap s chunks).proxies ∧
    (deliverChunks now cap s chunks).serialIn = [] := by
  obtain ⟨h1, h2, h3⟩ := deliverChunks_spec now cap chunks s hin
  refine ⟨?_, h1⟩
  rw [h2, foldl_pushByteAll]
  rw [List.forall₂_map_right_iff, List.forall₂_same]
  intro p hp
  obtain ⟨hwf, hcp⟩ := hroom p hp
  exact (foldl_write1 chunks.flatten p.rx hwf hcp).2.1

/-- Witness for C4 (amended): one proxy with inbound capacity 8, the sequence
1,2,3,4 delivered in two chunks. -/
theorem c4_read_broadcast_chunking_amended_witness :
    List.Forall₂
      (fun p q => RingBuffer.toList q.rx = RingBuffer.toList p.rx ++ [1, 2, 3, 4])
      ([⟨⟨8, fun _ => 0, 0, 0, 0⟩, ⟨8, fun _ => 0, 0, 0, 0⟩, 5, 0, false⟩] : List ProxyS)
      (deliverChunks 0 64
        ⟨AState.idle, [⟨⟨8, fun _ => 0, 0, 0, 0⟩, ⟨8, fun _ => 0, 0, 0, 0⟩, 5, 0, false⟩],
          none, [], []⟩ [[1, 2], [3, 4]]).proxies ∧
    (deliverChunks 0 64
        ⟨AState.idle, [⟨⟨8, fun _ => 0, 0, 0, 0⟩, ⟨8, fun _ => 0, 0, 0, 0⟩, 5, 0, false⟩],
          none, [], []⟩ [[1, 2], [3, 4]]).serialIn = [] := by
  have h := c4_read_broadcast_chunking_amended 0 64
    ⟨AState.idle, [⟨⟨8, fun _ => 0, 0, 0, 0⟩, ⟨8, fun _ => 0, 0, 0, 0⟩, 5, 0, false⟩],
      none, [], []⟩ [[1, 2], [3, 4]] rfl
    (by
      intro p hp
      simp only [List.mem_singleton] at hp
      subst hp
      exact ⟨⟨by decide, by decide, by decide⟩, by decide⟩)
  simpa using h

/-- C4 as stated is refuted: a proxy whose inbound ring has capacity 2
receives three inbound bytes; only the first two are pushed into its inbound
buffer, so the concatenation of pushed bytes differs from the delivered
sequence. -/
theorem c4_read_broadcast_chunking_counterexample :
    ((deliverChunks 0 64
        ⟨AState.idle, [⟨⟨2, fun _ => 0, 0, 0, 0⟩, ⟨2, fun _ => 0, 0, 0, 0⟩, 5, 0, false⟩],
          none, [], []⟩ [[1, 2, 3]]).proxies.map fun p => RingBuffer.toList p.rx) = [[1, 2]] ∧
    ([[1, 2]] : List (List Nat)) ≠ [[1, 2, 3]] := by
  constructor
  · rfl
  · decide

-- ============== Synchronous-mode channel arbitration (spec §4.2) ==============

/-- Modelled from the spec: the LogicalChannel transmission modes.  The
Synchronous mode, its flags and its timeouts appear only in the specification;
no source file under src/ carries them. -/
inductive ChanMode where
  | bestEffort
  | synchronous
deriving DecidableEq

/-- Modelled from the spec: a LogicalChannel of the generalized Transport
Scheduler, with mode, timing parameters, activity flags and its pending
outbound bytes. -/
structure LogicalChannel where
  mode : ChanMode
  outbound : List Nat
  interMessageDelay : Nat
  requestTimeout : Nat
  responseTimeout : Nat
  lastTxTime : Nat
  lastRxTime : Nat
  isWaitingResponse : Bool
  isProcessingRequest : Bool
  isActive : Bool

/-- Modelled from the spec: a Synchronous channel still inside its pending
request/response window — isProcessingRequest within requestTimeout, or
isWaitingResponse within responseTimeout. -/
def syncBlocked (now : Nat) (c : LogicalChannel) : Bool :=
  (c.mode = ChanMode.synchronous) &&
    ((c.isProcessingRequest && decide (now - c.lastRxTime < c.requestTimeout)) ||
     (c.isWaitingResponse && decide (now - c.lastTxTime < c.responseTimeout)))

/-- Modelled from the spec: clearing a stale Synchronous flag once its timeout
has elapsed. -/
def clearStale (now : Nat) (c : LogicalChannel) : LogicalChannel :=
  if c.mode = ChanMode.synchronous then
    { c with
      isProcessingRequest :=
        c.isProcessingRequest && decide (now - c.lastRxTime < c.requestTimeout),
      isWaitingResponse :=
        c.isWaitingResponse && decide (now - c.lastTxTime < c.responseTimeout) }
  else c

/-- Modelled from the spec: the per-channel iteration of the Write phase —
skip inactive, empty or delay-gated channels, transmit one bounded chunk
(half of the minimum of the outbound backlog and the line capacity) from the
first eligible channel, update lastTxTime, set isWaitingResponse for a
Synchronous channel, deactivate on empty. -/
def specWriteIter (now cap : Nat) :
    List LogicalChannel → List LogicalChannel × List Nat × AState
  | [] => ([], [], AState.idle)
  | c :: rest =>
    if !c.isActive || c.outbound.isEmpty ||
        decide (now - c.lastTxTime < c.interMessageDelay) then
      let r := specWriteIter now cap rest
      (c :: r.1, r.2.1, r.2.2)
    else
      let chunk := max 1 (min c.outbound.length cap / 2)
      let remaining := c.outbound.drop chunk
      let c2 : LogicalChannel :=
        { c with
          outbound := remaining
          lastTxTime := now
          isWaitingResponse := c.isWaitingResponse || (c.mode = ChanMode.synchronous)
          isActive := if remaining.isEmpty then false else c.isActive }
      (c2 :: rest,
       c.outbound.take chunk,
       if remaining.isEmpty || c.mode = ChanMode.synchronous then AState.idle
       else AState.write)

/-- Modelled from the spec: the whole Write phase of one scheduler cycle.  If
any Synchronous channel is inside its pending exchange window the phase is
skipped entirely and the scheduler returns to Idle; otherwise stale flags are
cleared and one bounded chunk is transmitted. -/
def specWritePhase (now cap : Nat) (chans : List LogicalChannel) :
    List LogicalChannel × List Nat × AState :=
  if chans.any (syncBlocked now) then (chans, [], AState.idle)
  else specWriteIter now cap (chans.map (clearStale now))

/-- C10.  If some registered channel is in Synchronous mode with an exchange
in flight (isProcessingRequest within requestTimeout, or isWaitingResponse
within responseTimeout), the Write phase transmits nothing at all this cycle —
no channel puts bytes on the physical line — and the scheduler returns to
Idle with every channel untouched. -/
theorem c10_synchronous_priority_blocks_write (now cap : Nat)
    (chans : List LogicalChannel)
    (hblocked : ∃ c ∈ chans, syncBlocked now c = true) :
    (specWritePhase now cap chans).2.1 = [] ∧
    (specWritePhase now cap chans).2.2 = AState.idle ∧
    (specWritePhase now cap chans).1 = chans := by
  have hany : chans.any (syncBlocked now) = true := by
    obtain ⟨c, hc, hb⟩ := hblocked
    exact List.any_eq_true.mpr ⟨c, hc, hb⟩
  unfold specWritePhase
  rw [if_pos hany]
  exact ⟨rfl, rfl, rfl⟩

/-- Witness for C10: two channels, one Synchronous mid-request, one
best-effort with pending data; nothing is transmitted. -/
theorem c10_synchronous_priority_blocks_write_witness :
    (specWritePhase 100 64
      [⟨ChanMode.synchronous, [9], 5, 1000, 1000, 0, 95, false, true, true⟩,
       ⟨ChanMode.bestEffort, [1, 2, 3], 5, 0, 0, 0, 0, false, false, true⟩]).2.1 = [] ∧
    (specWritePhase 100 64
      [⟨ChanMode.synchronous, [9], 5, 1000, 1000, 0, 95, false, true, true⟩,
       ⟨ChanMode.bestEffort, [1, 2, 3], 5, 0, 0, 0, 0, false, false, true⟩]).2.2 =
      AState.idle ∧
    (specWritePhase 100 64
      [⟨ChanMode.synchronous, [9], 5, 1000, 1000, 0, 95, false, true, true⟩,
       ⟨ChanMode.bestEffort, [1, 2, 3], 5, 0, 0, 0, 0, false, false, true⟩]).1 =
      [⟨ChanMode.synchronous, [9], 5, 1000, 1000, 0, 95, false, true, true⟩,
       ⟨ChanMode.bestEffort, [1, 2, 3], 5, 0, 0, 0, 0, false, false, true⟩] := by
  exact c10_synchronous_priority_blocks_write 100 64 _
    ⟨⟨ChanMode.synchronous, [9], 5, 1000, 1000, 0, 95, false, true, true⟩,
     List.mem_cons_self _ _, by decide⟩

-- ============== SerialFormatter (lib/APIServer/src/SerialFormatter.h) ==============

/-- JSON documents as the formatter sees them: boolean, integer and string
leaves plus nested objects.  Float leaves are left out: no claim below
evaluates one. -/
inductive Json where
  | b (v : Bool)
  | i (v : Int)
  | s (v : Str)
  | o (fields : List (Str × Json))

/-- Rendering of a non-object value: booleans as true/false, integers in
decimal, anything else through its string form (the type chain of
formatResponse's lambda). -/
def renderLeaf : Json → Str
  | .b true => "true".data
  | .b false => "false".data
  | .i v => (toString v).data
  | .s v => v
  | .o _ => []

/-- The addParams lambda of formatResponse: walks the object depth-first,
dot-joining nested keys, appending comma-separated key=value text onto the
accumulated result, with a first-pair flag suppressing the leading comma. -/
def addParams : List (Str × Json) → Str → Str × Bool → Str × Bool
  | [], _, acc => acc
  | (k, v) :: rest, pfx, acc =>
    let key := if pfx.isEmpty then k else pfx ++ '.' :: k
    match v with
    | .o sub => addParams rest pfx (addParams sub key acc)
    | leaf =>
      addParams rest pfx
        (acc.1 ++ (if acc.2 then [] else ",".data) ++ " ".data ++ key
          ++ "=".data ++ renderLeaf leaf,
         false)

/-- SerialFormatter::formatResponse. -/
def formatResponse (method path : Str) (resp : List (Str × Json)) : Str :=
  (addParams resp [] (method ++ " ".data ++ path ++ ":".data, true)).1

/-- SerialFormatter::formatEvent. -/
def formatEvent (event : Str) (data : List (Str × Json)) : Str :=
  "EVT ".data ++ event ++ ": ".data ++ formatResponse "EVT".data event data

/-- SerialFormatter::formatError. -/
def formatError (method path error : Str) : Str :=
  method ++ " ".data ++ path ++ ": error=".data ++ error

/-- The flattened key/value pairs of an object, depth-first with dot-joined
keys — the pair list addParams renders. -/
def flatten : List (Str × Json) → Str → List (Str × Str)
  | [], _ => []
  | (k, v) :: rest, pfx =>
    let key := if pfx.isEmpty then k else pfx ++ '.' :: k
    (match v with
     | .o sub => flatten sub key
     | leaf => [(key, renderLeaf leaf)]) ++ flatten rest pfx

/-- C9.  Evaluating formatEvent shows the event header is emitted twice: the
code prefixes "EVT name: " and then appends formatResponse("EVT", name, data)
which itself begins with "EVT name:", so the frame written on the wire is not
the documented single-header "EVT name: key=value" format. -/
theorem c9_formatEvent_duplicated_header :
    formatEvent "test".data [("enabled".data, Json.b true)] =
      "EVT test: EVT test: enabled=true".data ∧
    formatEvent "test".data [("enabled".data, Json.b true)] ≠
      "EVT test: enabled=true".data := by
  have hval : formatEvent "test".data [("enabled".data, Json.b true)] =
      "EVT test: EVT test: enabled=true".data := by
    simp only [formatEvent, formatResponse, addParams, renderLeaf]
    decide
  exact ⟨hval, by rw [hval]; decide⟩

-- ===== SerialFormatter::parseCommandLine (lib/APIServer/src/SerialFormatter.h) =====

/-- Lexicographic order on embedded strings by character code: the ordering of
std::map keys. -/
def strLt : Str → Str → Bool
  | [], [] => false
  | [], _ :: _ => true
  | _ :: _, [] => false
  | a :: as, b :: bs => if a = b then strLt as bs else decide (a < b)

/-- std::map insert-or-assign: params[key] = value. -/
def mapInsert : List (Str × Str) → Str → Str → List (Str × Str)
  | [], k, v => [(k, v)]
  | (k0, v0) :: rest, k, v =>
    if k = k0 then (k, v) :: rest
    else if strLt k k0 then (k, v) :: (k0, v0) :: rest
    else (k0, v0) :: mapInsert rest k v

/-- The per-parameter block of the parsing loop: trim, split at the first
'=', trim key and value, strip a surrounding quote pair, store. -/
def extractParam (param0 : Str) (acc : List (Str × Str)) : List (Str × Str) :=
  let param := trim param0
  match idxOf? param '=' with
  | none => acc
  | some eqPos =>
    let key := trim (substringA param 0 eqPos)
    let value0 := trim (param.drop (eqPos + 1))
    let value :=
      if startsWithA value0 "\"".data && endsWithA value0 "\"".data then
        substringA value0 1 (value0.length - 1)
      else value0
    mapInsert acc key value

/-- The character loop of parseCommandLine over the parameter text: quote
toggling, splitting at unquoted commas, and the end-of-string extraction that
happens at index length-1 inside the loop (so a final quote character ends the
loop without extracting).  The accumulated segment since the last split plays
the role of substring(start, i). -/
def scanParams (cur : Str) (inQ : Bool) : Str → List (Str × Str) → List (Str × Str)
  | [], acc => acc
  | [c], acc =>
    if c = '"' then acc
    else if inQ then acc
    else extractParam (cur ++ [c]) acc
  | c :: c2 :: rest, acc =>
    if c = '"' then scanParams (cur ++ [c]) (!inQ) (c2 :: rest) acc
    else if c = ',' && !inQ then scanParams [] inQ (c2 :: rest) (extractParam cur acc)
    else scanParams (cur ++ [c]) inQ (c2 :: rest) acc

/-- SerialFormatter::parseCommandLine.  The C++ fills out-parameters that the
callers pass in freshly constructed, so the early returns leave empty
fields. -/
def parseCommandLine (line : Str) : Str × Str × List (Str × Str) :=
  if line.length < 4 then ([], [], [])
  else
    let input := if startsWithA line "> ".data then line.drop 2
                 else if startsWithA line ">".data then line.drop 1
                 else line
    match idxOf? input ' ' with
    | none => ([], [], [])
    | some spacePos =>
      let method := substringA input 0 spacePos
      let input2 := input.drop (spacePos + 1)
      match idxOf? input2 ':' with
      | none => (method, input2, [])
      | some colonPos =>
        (method, substringA input2 0 colonPos,
         scanParams [] false (input2.drop (colonPos + 1)) [])

-- ===================== Round-trip analysis (claim C8) =====================

/-- The parameter text addParams appends after the header, as a function of
the flattened pairs and the first-pair flag. -/
def renderPairsF : List (Str × Str) → Bool → Str
  | [], _ => []
  | (k, v) :: rest, first =>
    (if first then [] else ",".data) ++ " ".data ++ k ++ "=".data ++ v ++
      renderPairsF rest false

theorem renderPairsF_append (xs ys : List (Str × Str)) :
    ∀ f : Bool,
      renderPairsF (xs ++ ys) f =
        renderPairsF xs f ++ renderPairsF ys (f && xs.isEmpty) := by
  induction xs with
  | nil => intro f; simp [renderPairsF]
  | cons p xs ih =>
    intro f
    obtain ⟨k, v⟩ := p
    simp only [List.cons_append, renderPairsF, List.append_eq]
    rw [ih]
    simp [List.append_assoc]

theorem listIsEmpty_append {α : Type} (l l2 : List α) :
    (l ++ l2).isEmpty = (l.isEmpty && l2.isEmpty) := by
  cases l <;> simp

theorem addParams_spec_aux (n : Nat) :
    ∀ fields : List (Str × Json), sizeOf fields ≤ n → ∀ pfx res first,
      addParams fields pfx (res, first) =
        (res ++ renderPairsF (flatten fields pfx) first,
         first && (flatten fields pfx).isEmpty) := by
  induction n with
  | zero =>
    intro fields hsz
    exfalso
    cases fields <;> simp at hsz
  | succ n ih =>
    intro fields hsz pfx res first
    match fields with
    | [] => simp [addParams, flatten, renderPairsF]
    | (k, v) :: rest =>
      match v with
      | .o sub =>
        have hs1 : sizeOf sub ≤ n := by simp at hsz; omega
        have hs2 : sizeOf rest ≤ n := by simp at hsz; omega
        have heq : addParams ((k, Json.o sub) :: rest) pfx (res, first) =
            addParams rest pfx
              (addParams sub (if pfx.isEmpty then k else pfx ++ '.' :: k) (res, first)) := by
          simp [addParams]
        have hfl : flatten ((k, Json.o sub) :: rest) pfx =
            flatten sub (if pfx.isEmpty then k else pfx ++ '.' :: k) ++ flatten rest pfx := by
          simp [flatten]
        rw [heq, ih sub hs1, ih rest hs2, hfl, renderPairsF_append]
        simp [List.append_assoc, listIsEmpty_append, Bool.and_assoc]
      | .b bv =>
        have hs2 : sizeOf rest ≤ n := by simp at hsz; omega
        have heq : addParams ((k, Json.b bv) :: rest) pfx (res, first) =
            addParams rest pfx
              (res ++ (if first then [] else ",".data) ++ " ".data ++
                (if pfx.isEmpty then k else pfx ++ '.' :: k) ++ "=".data ++
                renderLeaf (Json.b bv), false) := by
          simp [addParams]
        have hfl : flatten ((k, Json.b bv) :: rest) pfx =
            ((if pfx.isEmpty then k else pfx ++ '.' :: k), renderLeaf (Json.b bv)) ::
              flatten rest pfx := by
          simp [flatten]
        rw [heq, ih rest hs2, hfl]
        simp [renderPairsF, List.append_assoc]
      | .i iv =>
        have hs2 : sizeOf rest ≤ n := by simp at hsz; omega
        have heq : addParams ((k, Json.i iv) :: rest) pfx (res, first) =
            addParams rest pfx
              (res ++ (if first then [] else ",".data) ++ " ".data ++
                (if pfx.isEmpty then k else pfx ++ '.' :: k) ++ "=".data ++
                renderLeaf (Json.i iv), false) := by
          simp [addParams]
        have hfl : flatten ((k, Json.i iv) :: rest) pfx =
            ((if pfx.isEmpty then k else pfx ++ '.' :: k), renderLeaf (Json.i iv)) ::
              flatten rest pfx := by
          simp [flatten]
        rw [heq, ih rest hs2, hfl]
        simp [renderPairsF, List.append_assoc]
      | .s sv =>
        have hs2 : sizeOf rest ≤ n := by simp at hsz; omega
        have heq : addParams ((k, Json.s sv) :: rest) pfx (res, first) =
            addParams rest pfx
              (res ++ (if first then [] else ",".data) ++ " ".data ++
                (if pfx.isEmpty then k else pfx ++ '.' :: k) ++ "=".data ++
                renderLeaf (Json.s sv), false) := by
          simp [addParams]
        have hfl : flatten ((k, Json.s sv) :: rest) pfx =
            ((if pfx.isEmpty then k else pfx ++ '.' :: k), renderLeaf (Json.s sv)) ::
              flatten rest pfx := by
          simp [flatten]
        rw [heq, ih rest hs2, hfl]
        simp [renderPairsF, List.append_assoc]

theorem addParams_spec (fields : List (Str × Json)) (pfx res : Str) (first : Bool) :
    addParams fields pfx (res, first) =
      (res ++ renderPairsF (flatten fields pfx) first,
       first && (flatten fields pfx).isEmpty) :=
  addParams_spec_aux (sizeOf fields) fields le_rfl pfx res first

theorem formatResponse_eq (m p : Str) (resp : List (Str × Json)) :
    formatResponse m p resp =
      (m ++ " ".data ++ p ++ ":".data) ++ renderPairsF (flatten resp []) true := by
  unfold formatResponse
  rw [addParams_spec]

/-- Keys whose text survives the parameter parser unchanged: nonempty, not
whitespace-edged, free of the separator and quote characters. -/
def cleanKey (k : Str) : Bool :=
  !k.isEmpty && k.head?.all (fun c => !isWsChar c) &&
    k.getLast?.all (fun c => !isWsChar c) &&
    k.all (fun c => c != ',' && c != '"' && c != '=')

/-- Rendered values whose text survives the parameter parser unchanged: free
of commas and quotes, not whitespace-edged (an empty value is fine). -/
def cleanValue (v : Str) : Bool :=
  v.all (fun c => c != ',' && c != '"') &&
    v.head?.all (fun c => !isWsChar c) && v.getLast?.all (fun c => !isWsChar c)

theorem trimL_eq_self {s : Str} (h : s.head?.all (fun c => !isWsChar c) = true) :
    trimL s = s := by
  cases s with
  | nil => rfl
  | cons a l =>
    simp only [List.head?_cons, Option.all_some, Bool.not_eq_true'] at h
    unfold trimL
    rw [List.dropWhile_cons, if_neg (by simp [h])]

theorem trimR_eq_self {s : Str} (h : s.getLast?.all (fun c => !isWsChar c) = true) :
    trimR s = s := by
  unfold trimR
  have hrev : s.reverse.head?.all (fun c => !isWsChar c) = true := by
    rwa [List.head?_reverse]
  have := trimL_eq_self hrev
  unfold trimL at this
  rw [this, List.reverse_reverse]

theorem trim_eq_self {s : Str} (hh : s.head?.all (fun c => !isWsChar c) = true)
    (hl : s.getLast?.all (fun c => !isWsChar c) = true) : trim s = s := by
  unfold trim
  rw [trimL_eq_self hh, trimR_eq_self hl]

theorem idxOf?_append_cons (k : Str) (c : Char) (rest : Str) (h : ∀ x ∈ k, x ≠ c) :
    idxOf? (k ++ c :: rest) c = some k.length := by
  induction k with
  | nil => simp [idxOf?]
  | cons a l ih =>
    have ha : a ≠ c := h a (List.mem_cons_self a l)
    simp only [List.cons_append, idxOf?, if_neg ha, List.append_eq]
    rw [ih (fun x hx => h x (List.mem_cons_of_mem a hx))]
    simp

theorem substringA_zero (s : Str) (r : Nat) : substringA s 0 r = s.take r := by
  simp [substringA]

theorem startsWith_quote_false {v : Str} (h : ∀ c ∈ v, c ≠ '"') :
    startsWithA v "\"".data = false := by
  cases v with
  | nil => rfl
  | cons a l =>
    have ha : a ≠ '"' := h a (List.mem_cons_self a l)
    simp [startsWithA, List.isPrefixOf, Ne.symm ha]

theorem getLast?_append_cons (k : Str) (c : Char) (v : Str) :
    (k ++ c :: v).getLast? = (c :: v).getLast? := by
  have : c :: v ≠ [] := by simp
  exact List.getLast?_append_of_ne_nil k this

theorem extractParam_seg (k v : Str) (acc : List (Str × Str))
    (hk : cleanKey k = true) (hv : cleanValue v = true) :
    extractParam (' ' :: (k ++ '=' :: v)) acc = mapInsert acc k v := by
  have hk' := hk
  simp only [cleanKey, Bool.and_eq_true] at hk'
  obtain ⟨⟨⟨hk0, hkh⟩, hkl⟩, hkm⟩ := hk'
  have hv' := hv
  simp only [cleanValue, Bool.and_eq_true] at hv'
  obtain ⟨⟨hvm, hvh⟩, hvl⟩ := hv'
  have hkne : k ≠ [] := by
    cases k with
    | nil => simp at hk0
    | cons a l => simp
  have hkm' : ∀ c ∈ k, c ≠ ',' ∧ c ≠ '"' ∧ c ≠ '=' := by
    intro c hc
    have h2 := (List.all_eq_true.mp hkm) c hc
    simp only [Bool.and_eq_true, bne_iff_ne] at h2
    tauto
  have hvm' : ∀ c ∈ v, c ≠ ',' ∧ c ≠ '"' := by
    intro c hc
    have h2 := (List.all_eq_true.mp hvm) c hc
    simp only [Bool.and_eq_true, bne_iff_ne] at h2
    tauto
  have htrim : trim (' ' :: (k ++ '=' :: v)) = k ++ '=' :: v := by
    unfold trim
    have h1 : trimL (' ' :: (k ++ '=' :: v)) = trimL (k ++ '=' :: v) := by
      unfold trimL
      rw [List.dropWhile_cons, if_pos (by decide)]
    have h2 : trimL (k ++ '=' :: v) = k ++ '=' :: v := by
      apply trimL_eq_self
      cases k with
      | nil => exact absurd rfl hkne
      | cons a l => simpa using hkh
    rw [h1, h2]
    apply trimR_eq_self
    rw [getLast?_append_cons]
    cases v with
    | nil => decide
    | cons b bs =>
      have : (('=' : Char) :: b :: bs).getLast? = (b :: bs).getLast? :=
        List.getLast?_append_of_ne_nil ['='] (by simp)
      rw [this]
      exact hvl
  have htake : (k ++ '=' :: v).take k.length = k := List.take_left k ('=' :: v)
  have hdrop : (k ++ '=' :: v).drop (k.length + 1) = v := by
    have hsplit : k ++ '=' :: v = (k ++ ['=']) ++ v := by simp
    have hlen : (k ++ ['=']).length = k.length + 1 := by simp
    rw [hsplit, ← hlen, List.drop_left]
  have htrimk : trim k = k := trim_eq_self hkh hkl
  have htrimv : trim v = v := by
    cases v with
    | nil => rfl
    | cons b bs => exact trim_eq_self hvh hvl
  have hsw : startsWithA v "\"".data = false :=
    startsWith_quote_false (fun c hc => (hvm' c hc).2)
  unfold extractParam
  rw [htrim]
  dsimp only
  rw [idxOf?_append_cons k '=' v (fun x hx => (hkm' x hx).2.2)]
  dsimp only
  rw [substringA_zero, htake, htrimk, hdrop, htrimv, hsw]
  simp

theorem scanParams_last_block (s1 : Str) :
    ∀ cur acc, s1 ≠ [] → (∀ c ∈ s1, c ≠ ',' ∧ c ≠ '"') →
      scanParams cur false s1 acc = extractParam (cur ++ s1) acc := by
  induction s1 with
  | nil => intro cur acc h _; exact absurd rfl h
  | cons a rest ih =>
    intro cur acc _ hc
    have ha := hc a (List.mem_cons_self a rest)
    cases rest with
    | nil =>
      simp [scanParams, ha.2]
    | cons b rest2 =>
      rw [show scanParams cur false (a :: b :: rest2) acc =
          scanParams (cur ++ [a]) false (b :: rest2) acc from by
        simp [scanParams, ha.1, ha.2]]
      rw [ih (cur ++ [a]) acc (by simp)
        (fun c hcm => hc c (List.mem_cons_of_mem a hcm))]
      rw [List.append_assoc]
      rfl

theorem scanParams_comma_block (s1 : Str) :
    ∀ cur acc s2, s2 ≠ [] → (∀ c ∈ s1, c ≠ ',' ∧ c ≠ '"') →
      scanParams cur false (s1 ++ ',' :: s2) acc =
        scanParams [] false s2 (extractParam (cur ++ s1) acc) := by
  induction s1 with
  | nil =>
    intro cur acc s2 h2 _
    cases s2 with
    | nil => exact absurd rfl h2
    | cons b rest2 =>
      simp [scanParams]
  | cons a rest ih =>
    intro cur acc s2 h2 hc
    have ha := hc a (List.mem_cons_self a rest)
    have hne : rest ++ ',' :: s2 ≠ [] := by simp
    rcases hre : rest ++ ',' :: s2 with - | ⟨b, rest2⟩
    · exact absurd hre hne
    · rw [List.cons_append, hre]
      rw [show scanParams cur false (a :: b :: rest2) acc =
          scanParams (cur ++ [a]) false (b :: rest2) acc from by
        simp [scanParams, ha.1, ha.2]]
      rw [← hre]
      rw [ih (cur ++ [a]) acc s2 h2 (fun c hcm => hc c (List.mem_cons_of_mem a hcm))]
      rw [List.append_assoc]
      rfl

theorem renderPairsF_false_eq (l : List (Str × Str)) (h : l ≠ []) :
    renderPairsF l false = ',' :: renderPairsF l true := by
  cases l with
  | nil => exact absurd rfl h
  | cons kv rest =>
    obtain ⟨k, v⟩ := kv
    simp [renderPairsF]

theorem renderPairsF_true_ne_nil (l : List (Str × Str)) (h : l ≠ []) :
    renderPairsF l true ≠ [] := by
  cases l with
  | nil => exact absurd rfl h
  | cons kv rest =>
    obtain ⟨k, v⟩ := kv
    simp [renderPairsF]

theorem seg_chars (k v : Str) (hk : cleanKey k = true) (hv : cleanValue v = true) :
    ∀ c ∈ ' ' :: (k ++ '=' :: v), c ≠ ',' ∧ c ≠ '"' := by
  intro c hc
  simp only [cleanKey, cleanValue, Bool.and_eq_true, List.all_eq_true] at hk hv
  simp only [List.mem_cons, List.mem_append] at hc
  rcases hc with rfl | hc2
  · exact ⟨by decide, by decide⟩
  rcases hc2 with hck | hc3
  · have := hk.2 c hck
    simp only [Bool.and_eq_true, bne_iff_ne] at this
    exact ⟨this.1.1, this.1.2⟩
  rcases hc3 with rfl | hcv
  · exact ⟨by decide, by decide⟩
  · have := hv.1.1 c hcv
    simp only [Bool.and_eq_true, bne_iff_ne] at this
    exact this

theorem scanParams_pairs (pairs : List (Str × Str)) :
    ∀ acc, (∀ kv ∈ pairs, cleanKey kv.1 = true ∧ cleanValue kv.2 = true) →
      scanParams [] false (renderPairsF pairs true) acc =
        pairs.foldl (fun m kv => mapInsert m kv.1 kv.2) acc := by
  induction pairs with
  | nil => intro acc _; rfl
  | cons kv rest ih =>
    intro acc hclean
    obtain ⟨k, v⟩ := kv
    obtain ⟨hck, hcv⟩ := hclean (k, v) (List.mem_cons_self _ _)
    have hshape : renderPairsF ((k, v) :: rest) true =
        ' ' :: (k ++ '=' :: (v ++ renderPairsF rest false)) := by
      simp [renderPairsF]
    by_cases hrest : rest = []
    · subst hrest
      rw [hshape]
      simp only [renderPairsF, List.append_nil]
      rw [scanParams_last_block _ _ _ (by simp) (seg_chars k v hck hcv),
        List.nil_append, extractParam_seg k v acc hck hcv]
      rfl
    · rw [hshape, renderPairsF_false_eq rest hrest]
      rw [show ' ' :: (k ++ '=' :: (v ++ ',' :: renderPairsF rest true)) =
          (' ' :: (k ++ '=' :: v)) ++ ',' :: renderPairsF rest true from by simp]
      rw [scanParams_comma_block _ _ _ _ (renderPairsF_true_ne_nil rest hrest)
        (seg_chars k v hck hcv)]
      rw [List.nil_append, extractParam_seg k v acc hck hcv]
      rw [ih _ (fun kv2 hm => hclean kv2 (List.mem_cons_of_mem _ hm))]
      rfl

theorem strBeq_eq_true {a b : Str} (h : a = b) : (a == b) = true :=
  beq_iff_eq.mpr h

theorem strBeq_eq_false {a b : Str} (h : ¬ a = b) : (a == b) = false :=
  beq_eq_false_iff_ne.mpr h

theorem lookup_mapInsert (k v j : Str) :
    ∀ m : List (Str × Str),
      List.lookup j (mapInsert m k v) = if j = k then some v else List.lookup j m := by
  intro m
  induction m with
  | nil =>
    by_cases hjk : j = k
    · simp [mapInsert, List.lookup, strBeq_eq_true hjk, hjk]
    · simp [mapInsert, List.lookup, strBeq_eq_false hjk, hjk]
  | cons p rest ih =>
    obtain ⟨k0, v0⟩ := p
    unfold mapInsert
    by_cases hk0 : k = k0
    · subst hk0
      rw [if_pos rfl]
      by_cases hjk : j = k
      · simp [List.lookup, strBeq_eq_true hjk, hjk]
      · simp [List.lookup, strBeq_eq_false hjk, hjk]
    · rw [if_neg hk0]
      by_cases hlt : strLt k k0 = true
      · rw [if_pos hlt]
        by_cases hjk : j = k
        · have hjk0 : ¬ j = k0 := fun h => hk0 (hjk ▸ h)
          simp [List.lookup, strBeq_eq_true hjk, hjk]
        · simp [List.lookup, strBeq_eq_false hjk, hjk]
      · rw [if_neg hlt]
        by_cases hjk0 : j = k0
        · subst hjk0
          have hjk : ¬ j = k := fun h => hk0 h.symm
          simp [List.lookup, strBeq_eq_true (rfl : j = j), hjk]
        · by_cases hjk : j = k
          · subst hjk
            simp [List.lookup, strBeq_eq_false hk0, strBeq_eq_false hjk0, ih]
          · simp [List.lookup, strBeq_eq_false hjk0, hjk, ih]

theorem lookup_eq_none_keys (j : Str) :
    ∀ l : List (Str × Str), j ∉ l.map Prod.fst → List.lookup j l = none := by
  intro l
  induction l with
  | nil => intro _; rfl
  | cons p rest ih =>
    intro h
    obtain ⟨k0, v0⟩ := p
    simp only [List.map_cons, List.mem_cons] at h
    push_neg at h
    simp [List.lookup, strBeq_eq_false h.1, ih h.2]

theorem lookup_foldl_mapInsert (pairs : List (Str × Str)) :
    ∀ acc j, (pairs.map Prod.fst).Nodup →
      List.lookup j (pairs.foldl (fun m kv => mapInsert m kv.1 kv.2) acc) =
        (List.lookup j pairs).or (List.lookup j acc) := by
  induction pairs with
  | nil => intro acc j _; simp
  | cons kv rest ih =>
    intro acc j hnd
    obtain ⟨k, v⟩ := kv
    simp only [List.map_cons, List.nodup_cons] at hnd
    rw [List.foldl_cons, ih _ j hnd.2, lookup_mapInsert]
    by_cases hjk : j = k
    · subst hjk
      rw [lookup_eq_none_keys j rest hnd.1]
      simp [List.lookup, strBeq_eq_true (rfl : j = j)]
    · simp [List.lookup, strBeq_eq_false hjk, hjk]

theorem startsWith_gt_false (m rest : Str) (hm0 : m ≠ []) (h : m.head? ≠ some '>') :
    startsWithA (m ++ rest) ">".data = false ∧
    startsWithA (m ++ rest) "> ".data = false := by
  cases m with
  | nil => exact absurd rfl hm0
  | cons a mt =>
    have ha : a ≠ '>' := by
      intro hc
      exact h (by rw [hc]; rfl)
    constructor <;> simp [startsWithA, List.isPrefixOf, Ne.symm ha]

/-- C8 (amended).  Parsing the wire text produced by formatResponse recovers
the method, the path and exactly the flattened key/value map of the data —
provided the method is nonempty, space-free and does not begin with the
framing sigil, the path is nonempty and colon-free, and the flattened keys
and rendered values are clean (keys nonempty, distinct, free of '=', ',',
'"' and not whitespace-edged; values free of ',' and '"' and not
whitespace-edged).  Values containing commas or quotes do not survive
the round trip, as the counterexample shows: formatResponse never quotes. -/
theorem c8_format_parse_roundtrip_amended (m p : Str) (resp : List (Str × Json))
    (hm0 : m ≠ []) (hmsp : ∀ c ∈ m, c ≠ ' ') (hmgt : m.head? ≠ some '>')
    (hp0 : p ≠ []) (hpc : ∀ c ∈ p, c ≠ ':')
    (hclean : ∀ kv ∈ flatten resp [], cleanKey kv.1 = true ∧ cleanValue kv.2 = true)
    (hnodup : ((flatten resp []).map Prod.fst).Nodup) :
    (parseCommandLine (formatResponse m p resp)).1 = m ∧
    (parseCommandLine (formatResponse m p resp)).2.1 = p ∧
    ∀ key, List.lookup key (parseCommandLine (formatResponse m p resp)).2.2 =
      List.lookup key (flatten resp []) := by
  rw [formatResponse_eq]
  have hline : (m ++ " ".data ++ p ++ ":".data) ++ renderPairsF (flatten resp []) true =
      m ++ ' ' :: (p ++ ':' :: renderPairsF (flatten resp []) true) := by
    simp
  rw [hline]
  have hlen : ¬ (m ++ ' ' :: (p ++ ':' :: renderPairsF (flatten resp []) true)).length < 4 := by
    rcases m with - | ⟨a, mt⟩
    · exact absurd rfl hm0
    rcases p with - | ⟨b, pt⟩
    · exact absurd rfl hp0
    simp
    omega
  obtain ⟨hsw1, hsw2⟩ :=
    startsWith_gt_false m (' ' :: (p ++ ':' :: renderPairsF (flatten resp []) true)) hm0 hmgt
  unfold parseCommandLine
  rw [if_neg hlen]
  rw [hsw2, hsw1]
  simp only [Bool.false_eq_true, if_false]
  rw [idxOf?_append_cons m ' ' _ hmsp]
  dsimp only
  rw [substringA_zero, List.take_left]
  have hdropm : (m ++ ' ' :: (p ++ ':' :: renderPairsF (flatten resp []) true)).drop
      (m.length + 1) = p ++ ':' :: renderPairsF (flatten resp []) true := by
    have hsplit : m ++ ' ' :: (p ++ ':' :: renderPairsF (flatten resp []) true) =
        (m ++ [' ']) ++ (p ++ ':' :: renderPairsF (flatten resp []) true) := by simp
    have hlen2 : (m ++ [' ']).length = m.length + 1 := by simp
    rw [hsplit, ← hlen2, List.drop_left]
  rw [hdropm]
  rw [idxOf?_append_cons p ':' _ hpc]
  dsimp only
  rw [substringA_zero, List.take_left]
  have hdropp : (p ++ ':' :: renderPairsF (flatten resp []) true).drop (p.length + 1) =
      renderPairsF (flatten resp []) true := by
    have hsplit : p ++ ':' :: renderPairsF (flatten resp []) true =
        (p ++ [':']) ++ renderPairsF (flatten resp []) true := by simp
    have hlen2 : (p ++ [':']).length = p.length + 1 := by simp
    rw [hsplit, ← hlen2, List.drop_left]
  rw [hdropp]
  rw [scanParams_pairs (flatten resp []) [] hclean]
  refine ⟨rfl, rfl, ?_⟩
  intro key
  rw [lookup_foldl_mapInsert (flatten resp []) [] key hnodup]
  simp [List.lookup]

/-- Witness for C8 (amended): the spec's simple-GET scenario — method GET,
path wifi/status, data with one nested boolean — parses back to the same
flattened pair. -/
theorem c8_format_parse_roundtrip_amended_witness :
    (parseCommandLine (formatResponse "GET".data "wifi/status".data
        [("ap".data, Json.o [("enabled".data, Json.b true)])])).1 = "GET".data ∧
    (parseCommandLine (formatResponse "GET".data "wifi/status".data
        [("ap".data, Json.o [("enabled".data, Json.b true)])])).2.1 = "wifi/status".data ∧
    List.lookup "ap.enabled".data
        (parseCommandLine (formatResponse "GET".data "wifi/status".data
          [("ap".data, Json.o [("enabled".data, Json.b true)])])).2.2 =
      List.lookup "ap.enabled".data
        (flatten [("ap".data, Json.o [("enabled".data, Json.b true)])] []) := by
  have hf : flatten [("ap".data, Json.o [("enabled".data, Json.b true)])] [] =
      [("ap.enabled".data, "true".data)] := by
    simp [flatten, renderLeaf]
  obtain ⟨h1, h2, h3⟩ := c8_format_parse_roundtrip_amended "GET".data "wifi/status".data
    [("ap".data, Json.o [("enabled".data, Json.b true)])]
    (by decide) (by decide) (by decide) (by decide) (by decide)
    (by
      intro kv hm
      rw [hf] at hm
      simp only [List.mem_singleton] at hm
      subst hm
      exact ⟨by decide, by decide⟩)
    (by rw [hf]; simp)
  exact ⟨h1, h2, h3 _⟩

/-- C8 as stated is refuted: a value containing a comma does not survive the
round trip, because formatResponse writes it unquoted and the parser splits at
the comma — {k: "a,b"} comes back as {k: "a"}. -/
theorem c8_format_parse_roundtrip_counterexample :
    List.lookup "k".data
        (parseCommandLine (formatResponse "GET".data "p".data
          [("k".data, Json.s "a,b".data)])).2.2 = some "a".data ∧
    some "a".data ≠ some "a,b".data := by
  have hfr : formatResponse "GET".data "p".data [("k".data, Json.s "a,b".data)] =
      "GET p: k=a,b".data := by
    simp only [formatResponse, addParams, renderLeaf]
    decide
  rw [hfr]
  exact ⟨by decide, by decide⟩

-- ============ SerialAPIEndpoint (lib/APIServer/src/SerialAPIEndpoint.h) ============

/-- APIMethod as the endpoint consumes it.  Modelled from the spec: the auth
field's declaration ("whether authentication is required, with a credential
field compared against a provided value") is absent from the APIServer.h
under src/; the comparison logic itself is handleCommand's and is embedded
below from the source. -/
structure APIMethod where
  authEnabled : Bool
  authPassword : Str

/-- The external registry collaborators the endpoint calls: the
serial-protocol method map (getMethods "serial"), the execute operation
(executeMethod filling a response object), and the rendered documentation
text (getAPIDoc piped through formatAPIList) for the GET api shortcut. -/
structure Registry where
  methods : List (Str × APIMethod)
  execute : Str → Option (List (Str × Json)) → Bool × List (Str × Json)
  apiListText : Str

/-- JsonObject member assignment: current[key] = value (replace or append). -/
def setKey : List (Str × Json) → Str → Json → List (Str × Json)
  | [], k, v => [(k, v)]
  | (k0, v0) :: rest, k, v =>
    if k = k0 then (k, v) :: rest else (k0, v0) :: setKey rest k v

/-- JsonObject member lookup: containsKey / operator[]. -/
def getKey? : List (Str × Json) → Str → Option Json
  | [], _ => none
  | (k0, v0) :: rest, k => if k = k0 then some v0 else getKey? rest k

theorem idxOf?_some_lt (c : Char) :
    ∀ (s : Str) (i : Nat), idxOf? s c = some i → i < s.length := by
  intro s
  induction s with
  | nil => intro i h; simp [idxOf?] at h
  | cons a l ih =>
    intro i h
    simp only [idxOf?] at h
    by_cases ha : a = c
    · rw [if_pos ha] at h
      cases h
      simp
    · rw [if_neg ha] at h
      match hrec : idxOf? l c with
      | none => rw [hrec] at h; simp at h
      | some j =>
        rw [hrec] at h
        simp at h
        have := ih j hrec
        simp
        omega

/-- The dotted-key loop of handleCommand: walks '.'-separated segments with
containsKey/createNestedObject; descending into an existing non-object member
leaves a null variant whose subsequent writes are lost. -/
def setNested (obj : List (Str × Json)) (key : Str) (value : Str) : List (Str × Json) :=
  match h : idxOf? key '.' with
  | none => setKey obj key (Json.s value)
  | some i =>
    match getKey? obj (key.take i) with
    | some (Json.o sub) =>
      setKey obj (key.take i) (Json.o (setNested sub (key.drop (i + 1)) value))
    | some _ => obj
    | none => setKey obj (key.take i) (Json.o (setNested [] (key.drop (i + 1)) value))
termination_by key.length
decreasing_by
  all_goals
    have := idxOf?_some_lt '.' key i h
    simp [List.length_drop]
    omega

/-- Conversion of the flat parameter map to the nested JsonObject passed to
executeMethod. -/
def buildNested (params : List (Str × Str)) : List (Str × Json) :=
  params.foldl (fun obj kv => setNested obj kv.1 kv.2) []

/-- std::map::erase by key. -/
def eraseKey (params : List (Str × Str)) (k : Str) : List (Str × Str) :=
  params.filter (fun kv => kv.1 != k)

/-- The dispatch tail of handleCommand: convert parameters (a null pointer
when the map is empty), call executeMethod, format the response or the
failure error. -/
def execPhase (reg : Registry) (method path : Str) (params : List (Str × Str)) : Str :=
  let args := if params.isEmpty then none else some (buildNested params)
  let r := reg.execute path args
  if r.1 then "< ".data ++ formatResponse method path r.2
  else "< ".data ++ formatError method path "wrong request or parameters".data

/-- SerialAPIEndpoint::handleCommand: parse, validate the verb and path,
serve GET api from the documentation, look the path up among the serial
methods, check authentication, erase the credential, dispatch. -/
def handleCommand (reg : Registry) (command : Str) : Str :=
  let parsed := parseCommandLine command
  let method := parsed.1
  let path := parsed.2.1
  let params := parsed.2.2
  if ¬ (method ≠ [] ∧ path ≠ [] ∧
      (method = "GET".data ∨ method = "SET".data ∨ method = "LIST".data)) then
    "< ".data ++ formatError method path "invalid command".data
  else if method = "GET".data ∧ path = "api".data then
    "< GET api\n".data ++ reg.apiListText
  else
    match List.lookup path reg.methods with
    | none => "< ".data ++ formatError method path "method not found".data
    | some meth =>
      if meth.authEnabled then
        match List.lookup "auth.password".data params with
        | none => "< ".data ++ formatError method path "authentication failed".data
        | some pw =>
          if pw ≠ meth.authPassword then
            "< ".data ++ formatError method path "authentication failed".data
          else
            execPhase reg method path (eraseKey params "auth.password".data)
      else
        execPhase reg method path params

/-- SerialAPIEndpoint::SerialMode. -/
inductive SerialMode where
  | none
  | proxyReceive
  | proxySend
  | apiReceive
  | apiProcess
  | apiRespond
  | event
deriving DecidableEq

/-- SerialAPIEndpoint::PendingCommand. -/
structure PendingCommand where
  command : Str := []
  response : Str := []
  sendIndex : Nat := 0
  processed : Bool := false
deriving DecidableEq

def INPUT_BUFFER_SIZE : Nat := 1024
def OUTPUT_BUFFER_SIZE : Nat := 1024

/-- SerialProxy of the endpoint: two index-based rings (net capacity
SIZE - 1).  Nat subtraction truncates where size_t wraps, so available() is
computed by adding the buffer size before subtracting — equal to the C++
expression whenever both indices are below the buffer size. -/
structure SerialProxyState where
  outputBuffer : Nat → Char
  inputBuffer : Nat → Char
  outputReadIndex : Nat
  outputWriteIndex : Nat
  inputReadIndex : Nat
  inputWriteIndex : Nat
  initialized : Bool

namespace SerialProxyState

/-- int available(): pending bytes in the input ring. -/
def availableIn (p : SerialProxyState) : Nat :=
  if !p.initialized then 0
  else (p.inputWriteIndex + INPUT_BUFFER_SIZE - p.inputReadIndex) % INPUT_BUFFER_SIZE

/-- size_t writeToInput(uint8_t): refused when full or uninitialized. -/
def writeToInput (p : SerialProxyState) (c : Char) : SerialProxyState :=
  if !p.initialized then p
  else
    let nxt := (p.inputWriteIndex + 1) % INPUT_BUFFER_SIZE
    if nxt = p.inputReadIndex then p
    else
      { p with
        inputBuffer := fun j => if j = p.inputWriteIndex then c else p.inputBuffer j
        inputWriteIndex := nxt }

/-- int availableForWrite(): pending bytes in the output ring. -/
def availableForWrite (p : SerialProxyState) : Nat :=
  if !p.initialized then 0
  else (p.outputWriteIndex + OUTPUT_BUFFER_SIZE - p.outputReadIndex) % OUTPUT_BUFFER_SIZE

/-- int readOutput(): none for -1. -/
def readOutput (p : SerialProxyState) : Option Char × SerialProxyState :=
  if !p.initialized || p.availableForWrite = 0 then (none, p)
  else
    (some (p.outputBuffer p.outputReadIndex),
     { p with outputReadIndex := (p.outputReadIndex + 1) % OUTPUT_BUFFER_SIZE })

end SerialProxyState

/-- The whole observable state of one SerialAPIEndpoint plus its serial
line: pending inbound bytes and accumulated outbound bytes. -/
structure EpState where
  mode : SerialMode
  eventQueue : List Str
  currentCommand : PendingCommand
  apiBuffer : Str
  apiBufferIndex : Nat
  apiBufferOverflow : Bool
  lastTxRx : Nat
  proxy : SerialProxyState
  serialIn : Str
  serialOut : Str

def EP_RX_CHUNK_SIZE : Nat := 256
def TX_CHUNK_SIZE : Nat := 128
def QUEUE_SIZE : Nat := 10
def API_BUFFER_SIZE : Nat := 4096
def MODE_RESET_DELAY : Nat := 50

/-- SerialAPIEndpoint::pushEvent: drop the oldest entry once the queue holds
QUEUE_SIZE items, then enqueue the formatted event text. -/
def pushEvent (q : List Str) (event : Str) (data : List (Str × Json)) : List Str :=
  (if QUEUE_SIZE ≤ q.length then q.tail else q) ++ [formatEvent event data]

/-- The mode-reset block at the top of processStateMachine. -/
def timeoutStep (now : Nat) (st : EpState) : EpState :=
  if now - st.lastTxRx > MODE_RESET_DELAY then
    match st.mode with
    | SerialMode.apiReceive =>
      let st2 :=
        if st.apiBufferOverflow then
          { st with
            currentCommand :=
              { st.currentCommand with response := "< ERROR: error=command too long\n".data }
            mode := SerialMode.apiRespond }
        else if 0 < st.apiBufferIndex then
          { st with
            currentCommand :=
              { st.currentCommand with response := "< ERROR: error=command timeout\n".data }
            mode := SerialMode.apiRespond }
        else { st with mode := SerialMode.none }
      { st2 with apiBufferIndex := 0, apiBufferOverflow := false }
    | SerialMode.proxyReceive => { st with mode := SerialMode.none }
    | SerialMode.proxySend => { st with mode := SerialMode.none }
    | SerialMode.apiRespond =>
      if st.currentCommand.response.length ≤ st.currentCommand.sendIndex then
        { st with mode := SerialMode.none }
      else st
    | SerialMode.event =>
      if st.currentCommand.response.length ≤ st.currentCommand.sendIndex then
        { st with currentCommand := {}, mode := SerialMode.none }
      else st
    | _ => st
  else st

/-- The PROXY_RECEIVE while loop (bounded by RX_CHUNK_SIZE). -/
def proxyReceiveLoop (now : Nat) : Nat → EpState → EpState
  | 0, st => st
  | fuel + 1, st =>
    match st.serialIn with
    | [] => st
    | c :: rest =>
      proxyReceiveLoop now fuel
        { st with serialIn := rest, proxy := st.proxy.writeToInput c, lastTxRx := now }

/-- The inner PROXY_SEND while loop (bounded by TX_CHUNK_SIZE, breaking on an
empty output ring). -/
def proxySendLoop : Nat → EpState → EpState
  | 0, st => st
  | fuel + 1, st =>
    if 0 < st.proxy.availableForWrite then
      match st.proxy.readOutput with
      | (Option.none, p2) => { st with proxy := p2 }
      | (some c, p2) =>
        proxySendLoop fuel { st with proxy := p2, serialOut := st.serialOut ++ [c] }
    else st

/-- The PROXY_SEND case. -/
def proxySendCase (now : Nat) (st : EpState) : EpState :=
  if 0 < st.proxy.availableForWrite then
    { proxySendLoop TX_CHUNK_SIZE st with lastTxRx := now }
  else st

/-- The API_RECEIVE while loop (bounded by RX_CHUNK_SIZE): accumulate into
the line buffer, switch to API_PROCESS at a newline, discard everything once
the overflow flag is set, raise it when the buffer fills. -/
def apiReceiveLoop (now : Nat) : Nat → EpState → EpState
  | 0, st => st
  | fuel + 1, st =>
    match st.serialIn with
    | [] => st
    | c :: rest =>
      let st := { st with serialIn := rest, lastTxRx := now }
      if st.apiBufferOverflow then apiReceiveLoop now fuel st
      else if st.apiBufferIndex < API_BUFFER_SIZE - 1 then
        if c = '\n' then
          { st with
            currentCommand :=
              { st.currentCommand with command := st.apiBuffer.take st.apiBufferIndex }
            mode := SerialMode.apiProcess }
        else
          apiReceiveLoop now fuel
            { st with apiBuffer := st.apiBuffer.take st.apiBufferIndex ++ [c],
                      apiBufferIndex := st.apiBufferIndex + 1 }
      else
        apiReceiveLoop now fuel { st with apiBufferOverflow := true }

/-- The API_RESPOND / EVENT inner while loop: with MAX_TX_CHUNKS = 0 it sends
every remaining chunk of the response in this cycle. -/
def sendAllChunks : Nat → EpState → EpState
  | 0, st => st
  | fuel + 1, st =>
    if st.currentCommand.sendIndex < st.currentCommand.response.length then
      let remaining := st.currentCommand.response.length - st.currentCommand.sendIndex
      let chunkSize := min TX_CHUNK_SIZE remaining
      sendAllChunks fuel
        { st with
          serialOut := st.serialOut ++
            ((st.currentCommand.response.drop st.currentCommand.sendIndex).take chunkSize)
          currentCommand :=
            { st.currentCommand with sendIndex := st.currentCommand.sendIndex + chunkSize } }
    else st

/-- The API_RESPOND / EVENT case. -/
def apiRespondCase (now : Nat) (st : EpState) : EpState :=
  if st.currentCommand.sendIndex < st.currentCommand.response.length then
    { sendAllChunks st.currentCommand.response.length st with lastTxRx := now }
  else st

/-- SerialAPIEndpoint::processStateMachine: one poll() invocation. -/
def processStateMachine (reg : Registry) (now : Nat) (st0 : EpState) : EpState :=
  let st := timeoutStep now st0
  match st.mode with
  | SerialMode.none =>
    if st.eventQueue ≠ [] ∧ st.currentCommand.command = [] ∧
        st.currentCommand.response = [] ∧ st.currentCommand.sendIndex = 0 then
      { st with mode := SerialMode.event }
    else
      match st.serialIn with
      | c :: rest =>
        let st := { st with lastTxRx := now, serialIn := rest }
        if c = '>' then
          { st with mode := SerialMode.apiReceive, apiBuffer := [c], apiBufferIndex := 1 }
        else
          { st with mode := SerialMode.proxyReceive, proxy := st.proxy.writeToInput c }
      | [] =>
        if 0 < st.proxy.availableForWrite then
          { st with mode := SerialMode.proxySend, lastTxRx := now }
        else st
  | SerialMode.proxyReceive => proxyReceiveLoop now EP_RX_CHUNK_SIZE st
  | SerialMode.proxySend => proxySendCase now st
  | SerialMode.apiReceive => apiReceiveLoop now EP_RX_CHUNK_SIZE st
  | SerialMode.apiProcess =>
    let st2 :=
      if !st.currentCommand.processed then
        { st with
          currentCommand :=
            { st.currentCommand with
              response := handleCommand reg st.currentCommand.command
              processed := true }
          lastTxRx := now }
      else st
    { st2 with mode := SerialMode.apiRespond }
  | SerialMode.apiRespond => apiRespondCase now st
  | SerialMode.event => apiRespondCase now st

theorem foldl_pushEvent_general (evs : List (Str × List (Str × Json))) :
    ∀ q : List Str, q.length ≤ QUEUE_SIZE →
      evs.foldl (fun q2 e => pushEvent q2 e.1 e.2) q =
        (q ++ evs.map fun e => formatEvent e.1 e.2).drop
          (q.length + evs.length - QUEUE_SIZE) := by
  induction evs with
  | nil =>
    intro q hq
    have h10 : QUEUE_SIZE = 10 := rfl
    simp only [List.foldl_nil, List.map_nil, List.append_nil, List.length_nil]
    rw [show q.length + 0 - QUEUE_SIZE = 0 from by omega, List.drop_zero]
  | cons e rest ih =>
    intro q hq
    have h10 : QUEUE_SIZE = 10 := rfl
    simp only [List.foldl_cons]
    have hpe : pushEvent q e.1 e.2 =
        (if QUEUE_SIZE ≤ q.length then q.tail else q) ++ [formatEvent e.1 e.2] := rfl
    by_cases hfull : QUEUE_SIZE ≤ q.length
    · rw [hpe, if_pos hfull]
      rcases q with - | ⟨a, qt⟩
      · exfalso; simp [h10] at hfull
      · have hlen : qt.length = 9 := by
          simp [h10] at hfull hq
          omega
        rw [ih (List.tail (a :: qt) ++ [formatEvent e.1 e.2]) (by simp [h10]; omega)]
        simp only [List.tail_cons, List.cons_append, List.map_cons, List.length_append,
          List.length_cons, List.length_map, List.length_nil, Nat.zero_add]
        rw [hlen, h10]
        rw [show 9 + 1 + rest.length - 10 = rest.length from by omega,
          show 9 + 1 + (rest.length + 1) - 10 = rest.length + 1 from by omega,
          List.drop_succ_cons]
        simp [List.append_assoc]
    · rw [hpe, if_neg hfull]
      rw [ih (q ++ [formatEvent e.1 e.2]) (by simp [h10] at hfull ⊢; omega)]
      simp only [List.append_assoc, List.singleton_append, List.length_append,
        List.length_cons, List.length_map, List.map_cons]
      congr 1
      simp
      omega

/-- C7.  Pushing QUEUE_SIZE + 1 events into an initially empty queue keeps
exactly the last QUEUE_SIZE formatted events in push order: the first-pushed
entry is evicted and every push succeeds as a total operation. -/
theorem c7_event_queue_drop_oldest (evs : List (Str × List (Str × Json)))
    (h : evs.length = QUEUE_SIZE + 1) :
    evs.foldl (fun q e => pushEvent q e.1 e.2) [] =
      (evs.map fun e => formatEvent e.1 e.2).drop 1 ∧
    (evs.foldl (fun q e => pushEvent q e.1 e.2) []).length = QUEUE_SIZE := by
  have hg := foldl_pushEvent_general evs [] (by simp)
  simp only [List.length_nil, List.nil_append, Nat.zero_add] at hg
  rw [h, show QUEUE_SIZE + 1 - QUEUE_SIZE = 1 from by omega] at hg
  refine ⟨hg, ?_⟩
  rw [hg]
  simp [h]

/-- Witness for C7: eleven concrete events against the capacity-10 queue. -/
theorem c7_event_queue_drop_oldest_witness :
    ([("e0".data, []), ("e1".data, []), ("e2".data, []), ("e3".data, []),
      ("e4".data, []), ("e5".data, []), ("e6".data, []), ("e7".data, []),
      ("e8".data, []), ("e9".data, []), ("e10".data, [])] :
        List (Str × List (Str × Json))).foldl (fun q e => pushEvent q e.1 e.2) [] =
      (([("e0".data, []), ("e1".data, []), ("e2".data, []), ("e3".data, []),
        ("e4".data, []), ("e5".data, []), ("e6".data, []), ("e7".data, []),
        ("e8".data, []), ("e9".data, []), ("e10".data, [])] :
          List (Str × List (Str × Json))).map fun e => formatEvent e.1 e.2).drop 1 ∧
    (([("e0".data, []), ("e1".data, []), ("e2".data, []), ("e3".data, []),
      ("e4".data, []), ("e5".data, []), ("e6".data, []), ("e7".data, []),
      ("e8".data, []), ("e9".data, []), ("e10".data, [])] :
        List (Str × List (Str × Json))).foldl
      (fun q e => pushEvent q e.1 e.2) []).length = QUEUE_SIZE :=
  c7_event_queue_drop_oldest _ (by rfl)

/-- An initialized pass-through proxy with empty rings. -/
def epProxyInit : SerialProxyState :=
  { outputBuffer := fun _ => ' ', inputBuffer := fun _ => ' ',
    outputReadIndex := 0, outputWriteIndex := 0, inputReadIndex := 0,
    inputWriteIndex := 0, initialized := true }

/-- A registry with no serial methods. -/
def epRegEmpty : Registry :=
  { methods := [], execute := fun _ _ => (false, []), apiListText := [] }

/-- The state the C3 claim starts from: mode None, one queued event, no
command in flight, idle line. -/
def epC3Start : EpState :=
  { mode := SerialMode.none, eventQueue := ["EVT x: demo".data],
    currentCommand := {}, apiBuffer := [], apiBufferIndex := 0,
    apiBufferOverflow := false, lastTxRx := 0, proxy := epProxyInit,
    serialIn := [], serialOut := [] }

/-- C3 fails on the code: from mode None with a queued event and no command
in flight, poll does enter the Event state — but the front queue entry's text
is never copied into the pending response, so across subsequent polls nothing
is ever written to the serial line and the entry is never removed from the
queue; the endpoint cycles None → Event forever. -/
theorem c3_event_transmission_never_happens :
    (processStateMachine epRegEmpty 100 epC3Start).mode = SerialMode.event ∧
    (processStateMachine epRegEmpty 100 epC3Start).currentCommand.response = [] ∧
    (processStateMachine epRegEmpty 100 epC3Start).serialOut = [] ∧
    (processStateMachine epRegEmpty 100 epC3Start).eventQueue = ["EVT x: demo".data] ∧
    (processStateMachine epRegEmpty 202 (processStateMachine epRegEmpty 151
        (processStateMachine epRegEmpty 100 epC3Start))).serialOut = [] ∧
    (processStateMachine epRegEmpty 202 (processStateMachine epRegEmpty 151
        (processStateMachine epRegEmpty 100 epC3Start))).eventQueue =
      ["EVT x: demo".data] ∧
    (processStateMachine epRegEmpty 202 (processStateMachine epRegEmpty 151
        (processStateMachine epRegEmpty 100 epC3Start))).mode = SerialMode.event := by
  refine ⟨rfl, rfl, rfl, rfl, rfl, rfl, rfl⟩

theorem timeoutStep_noop (now : Nat) (st : EpState)
    (h : ¬ (now - st.lastTxRx > MODE_RESET_DELAY)) : timeoutStep now st = st := by
  unfold timeoutStep
  rw [if_neg h]

theorem apiReceiveLoop_overflow (now : Nat) (fuel : Nat) :
    ∀ st : EpState, st.apiBufferOverflow = true →
      (apiReceiveLoop now fuel st).mode = st.mode ∧
      (apiReceiveLoop now fuel st).apiBufferOverflow = true ∧
      (apiReceiveLoop now fuel st).apiBuffer = st.apiBuffer ∧
      (apiReceiveLoop now fuel st).apiBufferIndex = st.apiBufferIndex ∧
      (apiReceiveLoop now fuel st).currentCommand = st.currentCommand ∧
      (apiReceiveLoop now fuel st).serialOut = st.serialOut ∧
      (apiReceiveLoop now fuel st).eventQueue = st.eventQueue ∧
      (apiReceiveLoop now fuel st).serialIn = st.serialIn.drop fuel := by
  induction fuel with
  | zero =>
    intro st h
    exact ⟨rfl, h, rfl, rfl, rfl, rfl, rfl, rfl⟩
  | succ n ih =>
    intro st h
    rcases hin : st.serialIn with - | ⟨c, rest⟩
    · have hstep : apiReceiveLoop now (n + 1) st = st := by
        simp [apiReceiveLoop, hin]
      rw [hstep, hin]
      exact ⟨rfl, h, rfl, rfl, rfl, rfl, rfl, by simp⟩
    · have hstep : apiReceiveLoop now (n + 1) st =
          apiReceiveLoop now n { st with serialIn := rest, lastTxRx := now } := by
        simp [apiReceiveLoop, hin, h]
      obtain ⟨i1, i2, i3, i4, i5, i6, i7, i8⟩ :=
        ih { st with serialIn := rest, lastTxRx := now } h
      rw [hstep]
      exact ⟨i1, i2, i3, i4, i5, i6, i7, by simp [i8, hin]⟩

theorem sendAllChunks_done (fuel : Nat) (st : EpState)
    (h : st.currentCommand.response.length ≤ st.currentCommand.sendIndex) :
    sendAllChunks fuel st = st := by
  cases fuel with
  | zero => rfl
  | succ n => simp [sendAllChunks, Nat.not_lt.mpr h]

theorem apiRespondCase_short (now : Nat) (st : EpState)
    (h0 : st.currentCommand.sendIndex = 0)
    (hlen : 0 < st.currentCommand.response.length)
    (hle : st.currentCommand.response.length ≤ TX_CHUNK_SIZE) :
    (apiRespondCase now st).serialOut = st.serialOut ++ st.currentCommand.response ∧
    (apiRespondCase now st).mode = st.mode ∧
    (apiRespondCase now st).currentCommand.response = st.currentCommand.response ∧
    (apiRespondCase now st).currentCommand.sendIndex =
      st.currentCommand.response.length ∧
    (apiRespondCase now st).apiBufferIndex = st.apiBufferIndex ∧
    (apiRespondCase now st).apiBufferOverflow = st.apiBufferOverflow ∧
    (apiRespondCase now st).eventQueue = st.eventQueue := by
  unfold apiRespondCase
  rw [if_pos (by rw [h0]; exact hlen)]
  rcases hn : st.currentCommand.response.length with - | n
  · omega
  · have hstep : sendAllChunks (n + 1) st =
        sendAllChunks n
          { st with
            serialOut := st.serialOut ++ st.currentCommand.response
            currentCommand :=
              { st.currentCommand with
                sendIndex := st.currentCommand.response.length } } := by
      simp only [sendAllChunks]
      rw [if_pos (by rw [h0]; exact hlen)]
      rw [h0]
      rw [Nat.sub_zero, Nat.min_eq_right hle, List.drop_zero, List.take_length,
        Nat.zero_add]
    rw [hstep, sendAllChunks_done n _ (by exact le_refl _)]
    refine ⟨rfl, rfl, rfl, ?_, rfl, rfl, rfl⟩
    exact hn

/-- C6 (amended).  In ApiReceive: (i) a byte arriving when the line buffer is
full sets the overflow flag and is discarded; (ii) with the flag set and the
grace delay not yet elapsed, every arriving byte — terminators included — is
discarded and nothing else changes (the claim's "until a terminator arrives"
is refuted by the counterexample: only the idle timeout ends the discard);
(iii) once the mode-reset delay elapses with the flag set, the response
becomes "< ERROR: error=command too long\n", the buffer index and flag are
reset, the state moves to ApiRespond and the response text goes out. -/
theorem c6_overflow_discard_and_timeout_amended :
    (∀ (reg : Registry) (now : Nat) (st : EpState) (c : Char),
      st.mode = SerialMode.apiReceive → ¬ (now - st.lastTxRx > MODE_RESET_DELAY) →
      st.apiBufferOverflow = false → st.apiBufferIndex = API_BUFFER_SIZE - 1 →
      st.serialIn = [c] →
      (processStateMachine reg now st).apiBufferOverflow = true ∧
      (processStateMachine reg now st).mode = SerialMode.apiReceive ∧
      (processStateMachine reg now st).serialIn = []) ∧
    (∀ (reg : Registry) (now : Nat) (st : EpState),
      st.mode = SerialMode.apiReceive → ¬ (now - st.lastTxRx > MODE_RESET_DELAY) →
      st.apiBufferOverflow = true →
      (processStateMachine reg now st).mode = SerialMode.apiReceive ∧
      (processStateMachine reg now st).apiBufferOverflow = true ∧
      (processStateMachine reg now st).apiBuffer = st.apiBuffer ∧
      (processStateMachine reg now st).apiBufferIndex = st.apiBufferIndex ∧
      (processStateMachine reg now st).currentCommand = st.currentCommand ∧
      (processStateMachine reg now st).serialOut = st.serialOut ∧
      (processStateMachine reg now st).serialIn =
        st.serialIn.drop EP_RX_CHUNK_SIZE) ∧
    (∀ (reg : Registry) (now : Nat) (st : EpState),
      st.mode = SerialMode.apiReceive → now - st.lastTxRx > MODE_RESET_DELAY →
      st.apiBufferOverflow = true → st.serialIn = [] →
      st.currentCommand.sendIndex = 0 →
      (processStateMachine reg now st).mode = SerialMode.apiRespond ∧
      (processStateMachine reg now st).currentCommand.response =
        "< ERROR: error=command too long\n".data ∧
      (processStateMachine reg now st).apiBufferIndex = 0 ∧
      (processStateMachine reg now st).apiBufferOverflow = false ∧
      (processStateMachine reg now st).serialOut =
        st.serialOut ++ "< ERROR: error=command too long\n".data) := by
  refine ⟨?_, ?_, ?_⟩
  · intro reg now st c hmode htime hovf hidx hin
    have hpsm : processStateMachine reg now st =
        apiReceiveLoop now EP_RX_CHUNK_SIZE st := by
      unfold processStateMachine
      rw [timeoutStep_noop now st htime]
      dsimp only
      rw [hmode]
    have hnotlt : ¬ (st.apiBufferIndex < API_BUFFER_SIZE - 1) := by
      rw [hidx]
      exact lt_irrefl _
    have hstep : apiReceiveLoop now EP_RX_CHUNK_SIZE st =
        { st with serialIn := [], lastTxRx := now, apiBufferOverflow := true } := by
      rw [show EP_RX_CHUNK_SIZE = 255 + 1 from rfl]
      simp only [apiReceiveLoop, hin, hovf]
      rw [if_neg hnotlt]
      simp
    rw [hpsm, hstep]
    exact ⟨rfl, hmode, rfl⟩
  · intro reg now st hmode htime hovf
    have hpsm : processStateMachine reg now st =
        apiReceiveLoop now EP_RX_CHUNK_SIZE st := by
      unfold processStateMachine
      rw [timeoutStep_noop now st htime]
      dsimp only
      rw [hmode]
    rw [hpsm]
    obtain ⟨i1, i2, i3, i4, i5, i6, i7, i8⟩ :=
      apiReceiveLoop_overflow now EP_RX_CHUNK_SIZE st hovf
    exact ⟨by rw [i1, hmode], i2, i3, i4, i5, i6, i8⟩
  · intro reg now st hmode htime hovf hin hsi
    have hto : timeoutStep now st =
        { st with
          currentCommand :=
            { st.currentCommand with response := "< ERROR: error=command too long\n".data }
          mode := SerialMode.apiRespond, apiBufferIndex := 0,
          apiBufferOverflow := false } := by
      unfold timeoutStep
      rw [if_pos htime, hmode]
      rw [if_pos hovf]
    have hpsm : processStateMachine reg now st =
        apiRespondCase now
          { st with
            currentCommand :=
              { st.currentCommand with response := "< ERROR: error=command too long\n".data }
            mode := SerialMode.apiRespond, apiBufferIndex := 0,
            apiBufferOverflow := false } := by
      unfold processStateMachine
      rw [hto]
    obtain ⟨o1, o2, o3, o4, o5, o6, o7⟩ := apiRespondCase_short now
      { st with
        currentCommand :=
          { st.currentCommand with response := "< ERROR: error=command too long\n".data }
        mode := SerialMode.apiRespond, apiBufferIndex := 0,
        apiBufferOverflow := false }
      (by exact hsi)
      (by exact (show (0:Nat) < 32 from by decide))
      (by exact (show (32:Nat) ≤ TX_CHUNK_SIZE from by decide))
    rw [hpsm]
    exact ⟨by rw [o2], by rw [o3], o5 ▸ rfl, o6 ▸ rfl, by rw [o1]⟩

/-- ApiReceive state whose line buffer is one byte short of full, with a
newline waiting on the line. -/
def epC6Full : EpState :=
  { mode := SerialMode.apiReceive, eventQueue := [], currentCommand := {},
    apiBuffer := [], apiBufferIndex := API_BUFFER_SIZE - 1,
    apiBufferOverflow := false, lastTxRx := 0, proxy := epProxyInit,
    serialIn := ['\n'], serialOut := [] }

/-- ApiReceive state with the overflow flag already set and a newline
terminator arriving while the mode-reset grace delay has not elapsed. -/
def epC6Ovf : EpState :=
  { mode := SerialMode.apiReceive, eventQueue := [], currentCommand := {},
    apiBuffer := [], apiBufferIndex := 5,
    apiBufferOverflow := true, lastTxRx := 0, proxy := epProxyInit,
    serialIn := ['\n'], serialOut := [] }

/-- ApiReceive state with the overflow flag set and an idle line, polled
after the mode-reset delay has elapsed. -/
def epC6Timeout : EpState :=
  { mode := SerialMode.apiReceive, eventQueue := [], currentCommand := {},
    apiBuffer := [], apiBufferIndex := 4095,
    apiBufferOverflow := true, lastTxRx := 0, proxy := epProxyInit,
    serialIn := [], serialOut := [] }

theorem c6_overflow_discard_and_timeout_amended_witness :
    ((processStateMachine epRegEmpty 10 epC6Full).apiBufferOverflow = true ∧
      (processStateMachine epRegEmpty 10 epC6Full).mode = SerialMode.apiReceive ∧
      (processStateMachine epRegEmpty 10 epC6Full).serialIn = []) ∧
    ((processStateMachine epRegEmpty 10 epC6Ovf).mode = SerialMode.apiReceive ∧
      (processStateMachine epRegEmpty 10 epC6Ovf).apiBufferOverflow = true ∧
      (processStateMachine epRegEmpty 10 epC6Ovf).apiBuffer = epC6Ovf.apiBuffer ∧
      (processStateMachine epRegEmpty 10 epC6Ovf).apiBufferIndex = epC6Ovf.apiBufferIndex ∧
      (processStateMachine epRegEmpty 10 epC6Ovf).currentCommand = epC6Ovf.currentCommand ∧
      (processStateMachine epRegEmpty 10 epC6Ovf).serialOut = epC6Ovf.serialOut ∧
      (processStateMachine epRegEmpty 10 epC6Ovf).serialIn =
        epC6Ovf.serialIn.drop EP_RX_CHUNK_SIZE) ∧
    ((processStateMachine epRegEmpty 100 epC6Timeout).mode = SerialMode.apiRespond ∧
      (processStateMachine epRegEmpty 100 epC6Timeout).currentCommand.response =
        "< ERROR: error=command too long\n".data ∧
      (processStateMachine epRegEmpty 100 epC6Timeout).apiBufferIndex = 0 ∧
      (processStateMachine epRegEmpty 100 epC6Timeout).apiBufferOverflow = false ∧
      (processStateMachine epRegEmpty 100 epC6Timeout).serialOut =
        epC6Timeout.serialOut ++ "< ERROR: error=command too long\n".data) :=
  ⟨c6_overflow_discard_and_timeout_amended.1 epRegEmpty 10 epC6Full '\n'
      rfl (by decide) rfl rfl rfl,
   c6_overflow_discard_and_timeout_amended.2.1 epRegEmpty 10 epC6Ovf
      rfl (by decide) rfl,
   c6_overflow_discard_and_timeout_amended.2.2 epRegEmpty 100 epC6Timeout
      rfl (by decide) rfl rfl rfl⟩

/-- C6 counterexample: the claim says discarding continues "until a
terminator arrives or the idle timeout elapses", i.e. a newline ends the
discard phase.  In the code an arriving byte is discarded by `continue`
BEFORE the newline test, so a terminator arriving while the overflow flag is
set (grace delay not elapsed) is swallowed like any other byte: the endpoint
stays in ApiReceive with the flag still set, no response is produced and
nothing is written out.  Only the idle timeout ends the discard. -/
theorem c6_overflow_discard_and_timeout_counterexample :
    (processStateMachine epRegEmpty 10 epC6Ovf).mode = SerialMode.apiReceive ∧
    (processStateMachine epRegEmpty 10 epC6Ovf).apiBufferOverflow = true ∧
    (processStateMachine epRegEmpty 10 epC6Ovf).currentCommand.response = [] ∧
    (processStateMachine epRegEmpty 10 epC6Ovf).serialOut = [] := by
  refine ⟨rfl, rfl, rfl, rfl⟩

/-- C5 (amended).  For a command that passes handleCommand's initial
validation (verb GET/SET/LIST, nonempty path, not the GET api documentation
shortcut) and whose path names a registered serial method with
authentication enabled: a missing auth.password parameter, or one whose
value differs from the method's configured password, yields the formatted
"authentication failed" error, and the registry's execute operation is never
consulted (the response is unchanged under every execute function); a
matching password dispatches with the auth.password entry erased from the
parameter set.  (The original claim quantifies over every received command
whose path names such a method; a command rejected by the earlier verb
validation answers "invalid command" instead even when its path names an
authentication-enabled method — see the counterexample.) -/
theorem c5_auth_enforcement_amended :
    ∀ (reg : Registry) (cmd m p : Str) (params : List (Str × Str)),
      parseCommandLine cmd = (m, p, params) →
      (m = "GET".data ∨ m = "SET".data ∨ m = "LIST".data) →
      p ≠ [] →
      ¬ (m = "GET".data ∧ p = "api".data) →
      ∀ meth, List.lookup p reg.methods = some meth →
        meth.authEnabled = true →
        ((List.lookup "auth.password".data params = none →
            handleCommand reg cmd =
              "< ".data ++ formatError m p "authentication failed".data ∧
            ∀ ex, handleCommand { reg with execute := ex } cmd =
              handleCommand reg cmd) ∧
          (∀ pw, List.lookup "auth.password".data params = some pw →
            pw ≠ meth.authPassword →
            handleCommand reg cmd =
              "< ".data ++ formatError m p "authentication failed".data ∧
            ∀ ex, handleCommand { reg with execute := ex } cmd =
              handleCommand reg cmd) ∧
          (∀ pw, List.lookup "auth.password".data params = some pw →
            pw = meth.authPassword →
            handleCommand reg cmd =
              execPhase reg m p (eraseKey params "auth.password".data))) := by
  intro reg cmd m p params hparse hverb hp hnotapi meth hlook hauth
  have hm : m ≠ [] := by
    rcases hverb with h | h | h <;> (rw [h]; decide)
  have hred : ∀ (r : Registry), r.methods = reg.methods →
      handleCommand r cmd =
        (match List.lookup "auth.password".data params with
          | none => "< ".data ++ formatError m p "authentication failed".data
          | some pw =>
            if pw ≠ meth.authPassword then
              "< ".data ++ formatError m p "authentication failed".data
            else execPhase r m p (eraseKey params "auth.password".data)) := by
    intro r hr
    unfold handleCommand
    rw [hparse]
    dsimp only
    rw [if_neg (not_not_intro ⟨hm, hp, hverb⟩), if_neg hnotapi, hr, hlook]
    dsimp only
    rw [if_pos hauth]
  refine ⟨?_, ?_, ?_⟩
  · intro hnone
    refine ⟨?_, ?_⟩
    · rw [hred reg rfl, hnone]
    · intro ex
      rw [hred { reg with execute := ex } rfl, hred reg rfl, hnone]
  · intro pw hpw hne
    refine ⟨?_, ?_⟩
    · rw [hred reg rfl, hpw]
      dsimp only
      rw [if_pos hne]
    · intro ex
      rw [hred { reg with execute := ex } rfl, hred reg rfl, hpw]
      dsimp only
      rw [if_pos hne, if_pos hne]
  · intro pw hpw heq
    rw [hred reg rfl, hpw]
    dsimp only
    rw [if_neg (not_not_intro heq)]

/-- A registry with one serial method at path "secure" requiring the
password "pw". -/
def regC5 : Registry :=
  { methods := [("secure".data,
      { authEnabled := true, authPassword := "pw".data })],
    execute := fun _ _ => (true, [("ok".data, Json.b true)]),
    apiListText := [] }

theorem c5_auth_enforcement_amended_witness :
    (handleCommand regC5 "> GET secure".data =
      "< ".data ++
        formatError "GET".data "secure".data "authentication failed".data) ∧
    (handleCommand { regC5 with execute := fun _ _ => (false, []) }
        "> GET secure".data =
      handleCommand regC5 "> GET secure".data) ∧
    (handleCommand regC5 "> SET secure: auth.password=wrong".data =
      "< ".data ++
        formatError "SET".data "secure".data "authentication failed".data) ∧
    (handleCommand { regC5 with execute := fun _ _ => (false, []) }
        "> SET secure: auth.password=wrong".data =
      handleCommand regC5 "> SET secure: auth.password=wrong".data) ∧
    (handleCommand regC5 "> SET secure: auth.password=pw".data =
      execPhase regC5 "SET".data "secure".data
        (eraseKey [("auth.password".data, "pw".data)] "auth.password".data)) := by
  have h1 := (c5_auth_enforcement_amended regC5 "> GET secure".data
      "GET".data "secure".data [] rfl (Or.inl rfl) (by decide) (by decide)
      { authEnabled := true, authPassword := "pw".data } rfl rfl).1 rfl
  have h2 := ((c5_auth_enforcement_amended regC5
      "> SET secure: auth.password=wrong".data
      "SET".data "secure".data [("auth.password".data, "wrong".data)] rfl
      (Or.inr (Or.inl rfl)) (by decide) (by decide)
      { authEnabled := true, authPassword := "pw".data } rfl rfl).2.1
      "wrong".data rfl (by decide))
  have h3 := ((c5_auth_enforcement_amended regC5
      "> SET secure: auth.password=pw".data
      "SET".data "secure".data [("auth.password".data, "pw".data)] rfl
      (Or.inr (Or.inl rfl)) (by decide) (by decide)
      { authEnabled := true, authPassword := "pw".data } rfl rfl).2.2
      "pw".data rfl rfl)
  exact ⟨h1.1, h1.2 _, h2.1, h2.2 _, h3⟩

/-- C5 counterexample: the command "> FOO secure" — path "secure" names a
registered method with authentication enabled and no auth.password parameter
is supplied — answers the "invalid command" validation error, not the
"authentication failed" error the claim requires for every received command
whose path names such a method. -/
theorem c5_auth_enforcement_counterexample :
    handleCommand regC5 "> FOO secure".data =
      "< ".data ++
        formatError "FOO".data "secure".data "invalid command".data ∧
    handleCommand regC5 "> FOO secure".data ≠
      "< ".data ++
        formatError "FOO".data "secure".data "authentication failed".data := by
  exact ⟨by decide, by decide⟩
